import Mathlib

/-!
Verification development for the shake-proof domain benchmark engine.

The JavaScript sources are shallowly embedded: JSON-like runtime values
become the inductive type `Json`; property access, truthiness, strict
equality and the or-operator are modelled by explicit functions with
JavaScript semantics (property access on `null` raises, modelled in the
`Except` monad); Node's `crypto` SHA-256 is implemented bit-for-bit on
`Nat` with explicit reduction mod 2^32; the deterministic outcome of the
network-facing orchestrator `runDomainBenchmark` is computed against an
explicit environment of fetch results, together with a trace of the
requests it issues.

Conventions kept throughout:
* JavaScript numbers appearing in the benchmarked data are integers, so
  `Json.num` carries an `Int` (float formatting is out of scope).
* `Object.keys(...).sort()` compares strings by UTF-16 code units; we use
  code-point order, which agrees on all strings without astral-plane
  characters.
* JS strict equality on objects and arrays is reference equality; the
  embedding conservatively returns `false` there. All theorems that
  depend on `===` restrict the compared values to primitives.
-/

set_option maxRecDepth 40000

namespace ShakeProof

/-! ## JSON-like JavaScript values -/

/-- A JavaScript JSON value. `null` is JS `null`; a missing property
(JS `undefined`) is modelled as `Option.none` at use sites. -/
inductive Json where
  | null
  | bool (b : Bool)
  | num (n : Int)
  | str (s : String)
  | arr (elems : List Json)
  | obj (entries : List (String × Json))

mutual

def Json.decEq : (a b : Json) → Decidable (a = b)
  | .null, .null => .isTrue rfl
  | .bool x, .bool y =>
    if h : x = y then .isTrue (by rw [h]) else .isFalse (fun he => h (by cases he; rfl))
  | .num x, .num y =>
    if h : x = y then .isTrue (by rw [h]) else .isFalse (fun he => h (by cases he; rfl))
  | .str x, .str y =>
    if h : x = y then .isTrue (by rw [h]) else .isFalse (fun he => h (by cases he; rfl))
  | .arr xs, .arr ys =>
    match Json.decEqList xs ys with
    | .isTrue h => .isTrue (by rw [h])
    | .isFalse h => .isFalse (fun he => h (by cases he; rfl))
  | .obj xs, .obj ys =>
    match Json.decEqEntries xs ys with
    | .isTrue h => .isTrue (by rw [h])
    | .isFalse h => .isFalse (fun he => h (by cases he; rfl))
  | .null, .bool _ => .isFalse (fun h => by cases h)
  | .null, .num _ => .isFalse (fun h => by cases h)
  | .null, .str _ => .isFalse (fun h => by cases h)
  | .null, .arr _ => .isFalse (fun h => by cases h)
  | .null, .obj _ => .isFalse (fun h => by cases h)
  | .bool _, .null => .isFalse (fun h => by cases h)
  | .bool _, .num _ => .isFalse (fun h => by cases h)
  | .bool _, .str _ => .isFalse (fun h => by cases h)
  | .bool _, .arr _ => .isFalse (fun h => by cases h)
  | .bool _, .obj _ => .isFalse (fun h => by cases h)
  | .num _, .null => .isFalse (fun h => by cases h)
  | .num _, .bool _ => .isFalse (fun h => by cases h)
  | .num _, .str _ => .isFalse (fun h => by cases h)
  | .num _, .arr _ => .isFalse (fun h => by cases h)
  | .num _, .obj _ => .isFalse (fun h => by cases h)
  | .str _, .null => .isFalse (fun h => by cases h)
  | .str _, .bool _ => .isFalse (fun h => by cases h)
  | .str _, .num _ => .isFalse (fun h => by cases h)
  | .str _, .arr _ => .isFalse (fun h => by cases h)
  | .str _, .obj _ => .isFalse (fun h => by cases h)
  | .arr _, .null => .isFalse (fun h => by cases h)
  | .arr _, .bool _ => .isFalse (fun h => by cases h)
  | .arr _, .num _ => .isFalse (fun h => by cases h)
  | .arr _, .str _ => .isFalse (fun h => by cases h)
  | .arr _, .obj _ => .isFalse (fun h => by cases h)
  | .obj _, .null => .isFalse (fun h => by cases h)
  | .obj _, .bool _ => .isFalse (fun h => by cases h)
  | .obj _, .num _ => .isFalse (fun h => by cases h)
  | .obj _, .str _ => .isFalse (fun h => by cases h)
  | .obj _, .arr _ => .isFalse (fun h => by cases h)

def Json.decEqList : (a b : List Json) → Decidable (a = b)
  | [], [] => .isTrue rfl
  | [], _ :: _ => .isFalse (fun h => by cases h)
  | _ :: _, [] => .isFalse (fun h => by cases h)
  | x :: xs, y :: ys =>
    match Json.decEq x y with
    | .isTrue h1 =>
      match Json.decEqList xs ys with
      | .isTrue h2 => .isTrue (by rw [h1, h2])
      | .isFalse h2 => .isFalse (fun he => h2 (by cases he; rfl))
    | .isFalse h1 => .isFalse (fun he => h1 (by cases he; rfl))

def Json.decEqEntries : (a b : List (String × Json)) → Decidable (a = b)
  | [], [] => .isTrue rfl
  | [], _ :: _ => .isFalse (fun h => by cases h)
  | _ :: _, [] => .isFalse (fun h => by cases h)
  | (k, v) :: xs, (k2, v2) :: ys =>
    if hk : k = k2 then
      match Json.decEq v v2 with
      | .isTrue h1 =>
        match Json.decEqEntries xs ys with
        | .isTrue h2 => .isTrue (by rw [hk, h1, h2])
        | .isFalse h2 => .isFalse (fun he => h2 (by cases he; rfl))
      | .isFalse h1 => .isFalse (fun he => h1 (by cases he; rfl))
    else .isFalse (fun he => hk (by cases he; rfl))

end

instance : DecidableEq Json := Json.decEq

/-! ## JavaScript value semantics -/

/-- JS truthiness of a defined value. -/
def truthy : Json → Bool
  | .null => false
  | .bool b => b
  | .num n => n != 0
  | .str s => s != ""
  | .arr _ => true
  | .obj _ => true

/-- JS truthiness, with `none` standing for `undefined`. -/
def truthyOpt : Option Json → Bool
  | none => false
  | some j => truthy j

/-- JS `a || b` on possibly-undefined values: the first operand if truthy,
otherwise the second operand as-is. -/
def jsOr (a b : Option Json) : Option Json :=
  if truthyOpt a then a else b

/-- JS property access `base[key]`. Throws (monadic error) when the base is
`null`; yields `undefined` (`none`) on primitives and on arrays (the keys
used by this codebase are never array indices), and looks the key up on
objects. -/
def jsGet : Json → String → Except Unit (Option Json)
  | .null, _ => .error ()
  | .obj kvs, k => .ok (kvs.lookup k)
  | _, _ => .ok none

/-- JS strict equality `===` restricted to the values this codebase
compares. Primitives compare structurally; values of different types are
never equal; objects and arrays compare by reference, conservatively
modelled as `false` (see the file header). -/
def jsStrictEq : Json → Json → Bool
  | .null, .null => true
  | .bool a, .bool b => a == b
  | .num a, .num b => a == b
  | .str a, .str b => a == b
  | _, _ => false

/-- Strict equality where either side may be `undefined` (`none`). -/
def jsStrictEqOpt : Option Json → Option Json → Bool
  | none, none => true
  | some a, some b => jsStrictEq a b
  | _, _ => false

/-- Strict equality between a JS string and a possibly-undefined value. -/
def strEqJsonOpt (s : String) (o : Option Json) : Bool :=
  jsStrictEqOpt (some (.str s)) o

/-- JS `typeof v === 'object'`: true for `null`, arrays and objects. -/
def typeofObject : Json → Bool
  | .null => true
  | .arr _ => true
  | .obj _ => true
  | _ => false

/-- Decimal digit peeling with explicit fuel, so that the kernel can
evaluate it structurally. -/
def natToDecAux : Nat → Nat → List Char → List Char
  | 0, _, acc => acc
  | fuel + 1, n, acc =>
    if n < 10 then Nat.digitChar n :: acc
    else natToDecAux fuel (n / 10) (Nat.digitChar (n % 10) :: acc)

/-- Decimal representation of a natural number, as JS renders array
indices when `Object.entries`/`Object.keys` enumerates an array. -/
def natToDec (n : Nat) : String := ⟨natToDecAux (n + 1) n []⟩

/-- JS `Object.keys`: own enumerable keys — property names for objects,
decimal index strings for arrays (and, pedantically, strings), empty for
other primitives. -/
def jsKeys : Json → List String
  | .obj kvs => kvs.map Prod.fst
  | .arr xs => (List.range xs.length).map natToDec
  | .str s => (List.range s.length).map natToDec
  | _ => []

/-- JS `'k' in v`: key membership for objects; `false` for the
non-object values this codebase tests. -/
def jsHasKey (j : Json) (k : String) : Bool :=
  match j with
  | .obj kvs => (kvs.map Prod.fst).contains k
  | _ => false

/-! ## SHA-256 (Node `crypto.createHash('sha256')`), on `Nat` mod 2^32 -/

namespace Sha

/-- Truncate to a 32-bit word. -/
def w32 (x : Nat) : Nat := x % 4294967296

def rotr (n x : Nat) : Nat := w32 ((x >>> n) ||| (x <<< (32 - n)))

def shr (n x : Nat) : Nat := x >>> n

def bnot32 (x : Nat) : Nat := x ^^^ 4294967295

def bigSigma0 (x : Nat) : Nat := (rotr 2 x) ^^^ (rotr 13 x) ^^^ (rotr 22 x)

def bigSigma1 (x : Nat) : Nat := (rotr 6 x) ^^^ (rotr 11 x) ^^^ (rotr 25 x)

def smallSigma0 (x : Nat) : Nat := (rotr 7 x) ^^^ (rotr 18 x) ^^^ (shr 3 x)

def smallSigma1 (x : Nat) : Nat := (rotr 17 x) ^^^ (rotr 19 x) ^^^ (shr 10 x)

def ch (e f g : Nat) : Nat := (e &&& f) ^^^ ((bnot32 e) &&& g)

def maj (a b c : Nat) : Nat := (a &&& b) ^^^ (a &&& c) ^^^ (b &&& c)

/-- The 64 SHA-256 round constants, in the FIPS 180-4 order (validated,
with the initial state, by the test-vector theorem after `sha256Hex`). -/
def K : List Nat :=
  [0x428a2f98, 0x71374491, 0xb5c0fbcf, 0xe9b5dba5, 0x3956c25b, 0x59f111f1, 0x923f82a4]
    ++ [0xab1c5ed5, 0xd807aa98, 0x12835b01, 0x243185be, 0x550c7dc3, 0x72be5d74, 0x80deb1fe]
    ++ [0x9bdc06a7, 0xc19bf174, 0xe49b69c1, 0xefbe4786, 0x0fc19dc6, 0x240ca1cc, 0x2de92c6f]
    ++ [0x4a7484aa, 0x5cb0a9dc, 0x76f988da, 0x983e5152, 0xa831c66d, 0xb00327c8, 0xbf597fc7]
    ++ [0xc6e00bf3, 0xd5a79147, 0x06ca6351, 0x14292967, 0x27b70a85, 0x2e1b2138, 0x4d2c6dfc]
    ++ [0x53380d13, 0x650a7354, 0x766a0abb, 0x81c2c92e, 0x92722c85, 0xa2bfe8a1, 0xa81a664b]
    ++ [0xc24b8b70, 0xc76c51a3, 0xd192e819, 0xd6990624, 0xf40e3585, 0x106aa070, 0x19a4c116]
    ++ [0x1e376c08, 0x2748774c, 0x34b0bcb5, 0x391c0cb3, 0x4ed8aa4a, 0x5b9cca4f, 0x682e6ff3]
    ++ [0x748f82ee, 0x78a5636f, 0x84c87814, 0x8cc70208, 0x90befffa, 0xa4506ceb, 0xbef9a3f7]
    ++ [0xc67178f2]

/-- The initial hash state. -/
def H0 : List Nat :=
  [0x6a09e667, 0xbb67ae85, 0x3c6ef372, 0xa54ff53a]
    ++ [0x510e527f, 0x9b05688c, 0x1f83d9ab, 0x5be0cd19]

/-- UTF-8 encoding of one code point. -/
def utf8EncodeChar (c : Char) : List Nat :=
  let n := c.toNat
  if n < 0x80 then [n]
  else if n < 0x800 then [0xC0 ||| (n >>> 6), 0x80 ||| (n &&& 0x3F)]
  else if n < 0x10000 then
    [0xE0 ||| (n >>> 12), 0x80 ||| ((n >>> 6) &&& 0x3F), 0x80 ||| (n &&& 0x3F)]
  else
    [0xF0 ||| (n >>> 18), 0x80 ||| ((n >>> 12) &&& 0x3F), 0x80 ||| ((n >>> 6) &&& 0x3F),
     0x80 ||| (n &&& 0x3F)]

def utf8Bytes (s : String) : List Nat := s.data.flatMap utf8EncodeChar

/-- Big-endian 64-bit byte decomposition of the bit length. -/
def lenBytes64 (bits : Nat) : List Nat :=
  [(bits >>> 56) % 256, (bits >>> 48) % 256, (bits >>> 40) % 256, (bits >>> 32) % 256,
   (bits >>> 24) % 256, (bits >>> 16) % 256, (bits >>> 8) % 256, bits % 256]

/-- Append the 0x80 marker, zero padding to 56 mod 64, and the bit length. -/
def padBytes (msg : List Nat) : List Nat :=
  msg ++ [0x80] ++ List.replicate ((119 - msg.length % 64) % 64) 0 ++ lenBytes64 (msg.length * 8)

def bytesToWords : List Nat → List Nat
  | b0 :: b1 :: b2 :: b3 :: rest =>
    ((b0 <<< 24) ||| (b1 <<< 16) ||| (b2 <<< 8) ||| b3) :: bytesToWords rest
  | _ => []

/-- Split the padded word stream into 16-word blocks (structurally, so the
kernel can reduce it; a padded message is always a multiple of 16 words). -/
def toBlocks : List Nat → List (List Nat)
  | w0 :: w1 :: w2 :: w3 :: w4 :: w5 :: w6 :: w7 ::
    w8 :: w9 :: w10 :: w11 :: w12 :: w13 :: w14 :: w15 :: rest =>
    [w0, w1, w2, w3, w4, w5, w6, w7, w8, w9, w10, w11, w12, w13, w14, w15] :: toBlocks rest
  | [] => []
  | l => [l]

/-- Extend the 16-word block to the 64-entry message schedule. -/
def extendSchedule (ws : List Nat) : Nat → List Nat
  | 0 => ws
  | fuel + 1 =>
    let n := ws.length
    let nw := w32 (smallSigma1 (ws.getD (n - 2) 0) + ws.getD (n - 7) 0 +
                   smallSigma0 (ws.getD (n - 15) 0) + ws.getD (n - 16) 0)
    extendSchedule (ws ++ [nw]) fuel

/-- The eight working registers of the compression loop. -/
structure Regs where
  a : Nat
  b : Nat
  c : Nat
  d : Nat
  e : Nat
  f : Nat
  g : Nat
  h : Nat

def round (r : Regs) (ki wi : Nat) : Regs :=
  let t1 := w32 (r.h + bigSigma1 r.e + ch r.e r.f r.g + ki + wi)
  let t2 := w32 (bigSigma0 r.a + maj r.a r.b r.c)
  { a := w32 (t1 + t2), b := r.a, c := r.b, d := r.c,
    e := w32 (r.d + t1), f := r.e, g := r.f, h := r.g }

def rounds : Regs → List Nat → List Nat → Regs
  | r, k :: ks, w :: wsTail => rounds (round r k w) ks wsTail
  | r, _, _ => r

def compress (hs : List Nat) (block : List Nat) : List Nat :=
  let ws := extendSchedule block 48
  let r0 : Regs := { a := hs.getD 0 0, b := hs.getD 1 0, c := hs.getD 2 0, d := hs.getD 3 0,
                     e := hs.getD 4 0, f := hs.getD 5 0, g := hs.getD 6 0, h := hs.getD 7 0 }
  let r := rounds r0 K ws
  [w32 (hs.getD 0 0 + r.a), w32 (hs.getD 1 0 + r.b), w32 (hs.getD 2 0 + r.c),
   w32 (hs.getD 3 0 + r.d), w32 (hs.getD 4 0 + r.e), w32 (hs.getD 5 0 + r.f),
   w32 (hs.getD 6 0 + r.g), w32 (hs.getD 7 0 + r.h)]

def hexDigit (n : Nat) : Char := Nat.digitChar (n % 16)

def wordToHex (w : Nat) : List Char :=
  [hexDigit (w >>> 28), hexDigit (w >>> 24), hexDigit (w >>> 20), hexDigit (w >>> 16),
   hexDigit (w >>> 12), hexDigit (w >>> 8), hexDigit (w >>> 4), hexDigit w]

end Sha

/-- SHA-256 of a string (UTF-8 encoded), as lowercase hex — the embedding of
Node's `createHash('sha256').update(s).digest('hex')`. Validated against the
FIPS 180-4 test vectors (see `sha256Hex_fips_vectors` below). -/
def sha256Hex (s : String) : String :=
  let blocks := Sha.toBlocks (Sha.bytesToWords (Sha.padBytes (Sha.utf8Bytes s)))
  let final := blocks.foldl Sha.compress Sha.H0
  ⟨final.flatMap Sha.wordToHex⟩

/-- The implementation reproduces the FIPS 180-4 test vectors for the
empty message and for the message `abc`, checked by kernel reduction. -/
theorem sha256Hex_fips_vectors :
    sha256Hex "" = "e3b0c44298fc1c149afbf4c8996fb92427ae41e4649b934ca495991b7852b855" ∧
    sha256Hex "abc" = "ba7816bf8f01cfea414140de5dae2223b00361a396177a9cb410ff61f20015ad" := by
  constructor
  · decide
  · decide

/-! ## stableStringify and canonical key order (src/utils/merkle.js 163-173) -/

/-- JSON string escaping as performed by `JSON.stringify` on a string. -/
def escapeJsonChar (c : Char) : String :=
  if c = '"' then "\\\""
  else if c = '\\' then "\\\\"
  else if c = '\x08' then "\\b"
  else if c = '\x09' then "\\t"
  else if c = '\x0a' then "\\n"
  else if c = '\x0c' then "\\f"
  else if c = '\x0d' then "\\r"
  else if c.toNat < 0x20 then
    "\\u00" ++ ⟨[Nat.digitChar (c.toNat / 16), Nat.digitChar (c.toNat % 16)]⟩
  else String.singleton c

/-- The embedding of `JSON.stringify` applied to a string value. -/
def jsonQuote (s : String) : String :=
  "\"" ++ String.join (s.data.map escapeJsonChar) ++ "\""

/-- Lexicographic comparison of character lists by code point, the order
`Array.prototype.sort()` applies to the (BMP-only) keys of this
codebase. -/
def lexLe : List Char → List Char → Bool
  | [], _ => true
  | _ :: _, [] => false
  | a :: as, b :: bs =>
    if a < b then true
    else if b < a then false
    else lexLe as bs

/-- String comparison used by `Object.keys(obj).sort()`. -/
def strLe (a b : String) : Bool := lexLe a.data b.data

/-- The sort order as a relation, for the sorting lemmas. -/
def keyLe (a b : String) : Prop := strLe a b = true

instance : DecidableRel keyLe := fun a b => instDecidableEqBool (strLe a b) true

/-- `Object.keys(obj).sort()`: lexicographic string sort. Insertion sort is
used as the embedding of `.sort()`: on a list of strings every correct
sorting algorithm returns the same list, since duplicate keys are
identical strings. -/
def sortKeys (l : List String) : List String :=
  l.insertionSort keyLe

/-- Assemble the object serialization from the already-serialized entry
values: sort the keys, then emit `JSON.stringify(key) + ':' + value` for
each key, comma-joined inside braces. Looking the serialized value up by
key is exactly `obj[key]` on the original object, since the entries carry
the object's keys. -/
def stringifyObj (skvs : List (String × String)) : String :=
  "\x7b" ++ String.intercalate ","
    ((sortKeys (skvs.map Prod.fst)).map
      (fun k => jsonQuote k ++ ":" ++ ((skvs.lookup k).getD ""))) ++ "\x7d"

mutual

/-- The embedding of `stableStringify` (src/utils/merkle.js lines 163-173):
arrays keep element order; objects serialize their entries under
lexicographically sorted keys; primitives go through `JSON.stringify`. -/
def stableStringify : Json → String
  | .arr xs => "[" ++ String.intercalate "," (stringifyList xs) ++ "]"
  | .obj kvs => stringifyObj (stringifyEntries kvs)
  | .null => "null"
  | .bool b => if b then "true" else "false"
  | .num n => toString n
  | .str s => jsonQuote s

def stringifyList : List Json → List String
  | [] => []
  | x :: xs => stableStringify x :: stringifyList xs

def stringifyEntries : List (String × Json) → List (String × String)
  | [] => []
  | (k, v) :: kvs => (k, stableStringify v) :: stringifyEntries kvs

end

/-- Rebuild an association list along a key list, keeping each key's value
(first occurrence). -/
def reassemble {β : Type} (ks : List String) (l : List (String × β)) : List (String × β) :=
  ks.filterMap (fun k => (l.lookup k).map (fun v => (k, v)))

/-- Reorder an entry list into sorted key order, keeping each key's value
(first occurrence). Used to express "equality up to recursive key order". -/
def sortEntriesByKey (kvs : List (String × Json)) : List (String × Json) :=
  reassemble (sortKeys (kvs.map Prod.fst)) kvs

mutual

/-- Canonical form of a JSON value: object entries are recursively put into
sorted key order, arrays keep their element order. Two values are "equal up
to recursive key order" exactly when their canonical forms are equal. -/
def canonJson : Json → Json
  | .arr xs => .arr (canonList xs)
  | .obj kvs => .obj (sortEntriesByKey (canonEntries kvs))
  | .null => .null
  | .bool b => .bool b
  | .num n => .num n
  | .str s => .str s

def canonList : List Json → List Json
  | [] => []
  | x :: xs => canonJson x :: canonList xs

def canonEntries : List (String × Json) → List (String × Json)
  | [] => []
  | (k, v) :: kvs => (k, canonJson v) :: canonEntries kvs

end

/-! ## Module checksum and Merkle root (src/utils/merkle.js 180-212) -/

/-- `Object.entries` of a JS array: each element keyed by its decimal index
string, in index order. -/
def indexEntries (records : List Json) : List (String × Json) :=
  records.enum.map (fun p => (natToDec p.1, p.2))

/-- The embedding of `calculateModuleChecksum` (src/utils/merkle.js lines
180-184) at the array arguments the benchmark passes it: `Object.entries`
turns the array into index-keyed entries, the top-level filter drops a key
literally named `checksum` (vacuous for index keys), `Object.fromEntries`
rebuilds an object, which is then stable-stringified and hashed. -/
def calculateModuleChecksum (records : List Json) : String :=
  sha256Hex (stableStringify (.obj ((indexEntries records).filter
    (fun kv => kv.1 != "checksum"))))

/-- One level of the Merkle collapse: hash adjacent pairs (concatenating
their hex text), pairing a dangling last leaf with itself. -/
def hashPairs : List String → List String
  | a :: b :: rest => sha256Hex (a ++ b) :: hashPairs rest
  | [a] => [sha256Hex (a ++ a)]
  | [] => []

/-- The `while (level.length > 1)` loop, with fuel so that the kernel can
evaluate it; `fuel = level.length` always suffices because each step at
least halves the level. -/
def merkleLoop : Nat → List String → List String
  | 0, level => level
  | fuel + 1, level =>
    if level.length ≤ 1 then level else merkleLoop fuel (hashPairs level)

/-- The embedding of `calculateMerkleRoot` (src/utils/merkle.js lines
191-212): empty list yields the empty string; otherwise collapse the level
list until one hash remains and return it. -/
def calculateMerkleRoot (leaves : List String) : String :=
  if leaves.length = 0 then ""
  else (merkleLoop leaves.length leaves).getD 0 ""

/-! ## Fetch policy (src/crawlers/langshake.js 13-23) -/

/-- An axios request configuration: the aspects the sources set. -/
structure AxiosConfig where
  headers : List (String × String)
  timeout : Option Nat
deriving DecidableEq

def noCacheHeaders : List (String × String) :=
  [("Cache-Control", "no-cache"), ("Pragma", "no-cache")]

/-- The per-attempt request configuration built by `axiosGetWithRetry`
(src/crawlers/langshake.js line 16-17): the caller's headers spread first
and then overridden by the no-cache pair, and a fixed 10000 ms timeout. -/
def axiosGetWithRetryConfig (options : AxiosConfig) : AxiosConfig :=
  { headers :=
      options.headers.filter
        (fun kv => kv.1 != "Cache-Control" && kv.1 != "Pragma") ++ noCacheHeaders,
    timeout := some 10000 }

/-- The request configuration of the plain `axios.get` calls issued by
`runDomainBenchmark` (src/benchmark/compare.js lines 79, 176 and 222):
no-cache headers, and no timeout configured. -/
def compareGetConfig : AxiosConfig :=
  { headers := noCacheHeaders, timeout := none }

/-- Default retry count of `axiosGetWithRetry`. -/
def axiosRetries : Nat := 3

/-- Default inter-attempt delay (ms) of `axiosGetWithRetry`. -/
def axiosDelayMs : Nat := 500

/-- The retry loop of `axiosGetWithRetry` (src/crawlers/langshake.js lines
14-22), evaluated against the per-attempt outcomes `attempt`: starting at
attempt number `a` with `remaining` attempts allowed, return the final
outcome, the number of the attempt that produced it, and the list of
delays slept between attempts. The final failed attempt rethrows with no
further delay. -/
def axiosRetryLoop (attempt : Nat → Except Unit Json) (delayMs : Nat) :
    Nat → Nat → Except Unit Json × Nat × List Nat
  | _, 0 => (.error (), 0, [])
  | a, 1 => (attempt a, a, [])
  | a, remaining + 2 =>
    match attempt a with
    | .ok r => (.ok r, a, [])
    | .error _ =>
      let rest := axiosRetryLoop attempt delayMs (a + 1) (remaining + 1)
      (rest.1, rest.2.1, delayMs :: rest.2.2)

/-- The embedding of `axiosGetWithRetry(url, options, retries, delayMs)`:
the outcome, final attempt number and slept delays of the retry loop. -/
def axiosGetWithRetry (attempt : Nat → Except Unit Json) (retries delayMs : Nat) :
    Except Unit Json × Nat × List Nat :=
  axiosRetryLoop attempt delayMs 1 retries

/-! ## Module validation (src/crawlers/langshake.js 31-56) -/

/-- Outcome of `validateModule` once the payload has been fetched: either a
structural error (the source returns `modJson: null` with an error string),
or a usable module carrying the declared checksum value and the result of
comparing it against the recomputed one (a mismatch is reported but the
records stay usable). -/
inductive ValidateResult where
  | structError (msg : String)
  | valid (payload : List Json) (checksum : Json) (checksumValid : Bool)
deriving DecidableEq

/-- The embedding of the validation logic of `validateModule`
(src/crawlers/langshake.js lines 36-52), applied to a fetched payload. -/
def validateModulePayload (modPath : String) (modJson : Json) : ValidateResult :=
  match modJson with
  | .arr xs =>
    if xs.length < 2 then
      .structError ("Module " ++ modPath ++ " is not a valid array with checksum.")
    else
      let dataArr := xs.dropLast
      let checksumObj := xs.getLast?.getD .null
      if ¬ (truthy checksumObj && typeofObject checksumObj) then
        .structError ("Module " ++ modPath ++ " missing checksum object.")
      else
        match jsGet checksumObj "checksum" with
        | .error _ => .structError ("Module " ++ modPath ++ " missing checksum object.")
        | .ok c =>
          if ¬ truthyOpt c then
            .structError ("Module " ++ modPath ++ " missing checksum object.")
          else
            let calculated := calculateModuleChecksum dataArr
            let checksum := c.getD .null
            .valid xs checksum (jsStrictEq checksum (.str calculated))
  | _ => .structError ("Module " ++ modPath ++ " is not a valid array with checksum.")

/-- True when `validateModule` produced a usable module (non-null
`modJson`), false when it returned a structural error. -/
def ValidateResult.isUsable : ValidateResult → Bool
  | .structError _ => false
  | .valid _ _ _ => true

/-! ## Domain benchmark (src/benchmark/compare.js) -/

/-- JS optional chaining `base?.[key]`: `undefined` on a nullish base,
plain property access otherwise (never throws). -/
def optChain (j : Json) (k : String) : Option Json :=
  match j with
  | .null => none
  | .obj kvs => kvs.lookup k
  | _ => none

/-- Two-step optional chain `base?.k1?.k2`. -/
def optChain2 (j : Json) (k1 k2 : String) : Option Json :=
  match optChain j k1 with
  | none => none
  | some v => optChain v k2

/-- JS `x || null` collapsed onto a defined value: the value if truthy,
else `null`. -/
def orNull (o : Option Json) : Json :=
  if truthyOpt o then o.getD .null else .null

/-- The embedding of `getUrl` = `obj => obj.url || obj['og:url']`
(src/benchmark/compare.js line 15), with JS short-circuiting: the second
property is only read when the first is falsy. -/
def getUrl (j : Json) : Except Unit (Option Json) := do
  let u ← jsGet j "url"
  if truthyOpt u then pure u else jsGet j "og:url"

/-- The `schemas.every(obj => getUrl(obj) === url)` loop: short-circuits on
the first mismatch (so later property accesses are not evaluated). -/
def allUrlsMatchGo (url : Option Json) : List Json → Except Unit Bool
  | [] => .ok true
  | s :: rest => do
    let u ← getUrl s
    if jsStrictEqOpt u url then allUrlsMatchGo url rest else .ok false

/-- The embedding of `allUrlsMatch` (src/benchmark/compare.js lines 13-18):
vacuously true on an empty array, otherwise every record's subject URL must
be strictly equal to the first record's. -/
def allUrlsMatch : List Json → Except Unit Bool
  | [] => .ok true
  | s0 :: rest => do
    let url ← getUrl s0
    allUrlsMatchGo url (s0 :: rest)

/-- The `.filter(obj => obj.url || obj['og:url'])` pass over a module's
records (src/benchmark/compare.js lines 253 and 256): keeps the records
whose subject URL is truthy; property access may throw. -/
def filterUrlRecords : List Json → Except Unit (List Json)
  | [] => .ok []
  | x :: xs => do
    let u ← getUrl x
    let rest ← filterUrlRecords xs
    pure (if truthyOpt u then x :: rest else rest)

/-- The checksum-form test of src/benchmark/compare.js lines 244-251:
an array of length > 1 whose last element is a non-null object-typed value
with exactly one key, literally `checksum`. -/
def isChecksumForm (xs : List Json) : Bool :=
  xs.length > 1 &&
  (match xs.getLast? with
   | some last =>
     typeofObject last && last != .null &&
     (jsKeys last).length == 1 && jsHasKey last "checksum"
   | none => false)

/-- The per-module payload processing of `runDomainBenchmark`
(src/benchmark/compare.js lines 234-269), in the `Except` monad standing
for the surrounding `try`: the result is the records kept for the module,
the value of `langshakeChecksumOriginal`, and the value of `canonicalUrl`;
a monadic error is any path to the catch handler (malformed payload,
property access on `null`, or the inconsistent-subject-URL throw). -/
def processPayload (modJson : Json) : Except Unit (List Json × Json × Json) := do
  if ¬ typeofObject modJson ∨ modJson = .null then .error ()
  else do
    let (schemas, checksumOriginal, canonicalUrl) ←
      match modJson with
      | .arr xs =>
        if isChecksumForm xs then do
          let last := xs.getLast?.getD .null
          let c ← jsGet last "checksum"
          let schemas ← filterUrlRecords xs.dropLast
          let u1 ← jsGet (xs.getD 0 .null) "url"
          let u2 ← jsGet (xs.getD 0 .null) "og:url"
          pure (schemas, c.getD .null, orNull (jsOr u1 u2))
        else do
          let schemas ← filterUrlRecords xs
          let u1 := optChain (xs.getD 0 .null) "url"
          let u2 := optChain (xs.getD 0 .null) "og:url"
          pure (schemas, Json.null, orNull (jsOr u1 u2))
      | _ => do
        let u ← getUrl modJson
        let c ← jsGet modJson "checksum"
        if truthyOpt u then
          pure ([modJson], if truthyOpt c then c.getD .null else .null,
                orNull (some (u.getD .null)))
        else
          pure (([] : List Json), if truthyOpt c then c.getD .null else .null, Json.null)
    let ok ← allUrlsMatch schemas
    if ok then pure (schemas, checksumOriginal, canonicalUrl) else .error ()

/-- A slot of `langshakeResults` for one module (index 1 and up). -/
inductive LSlot where
  | err (url : Json)
  | ok (url : Json) (langshake : List Json) (checksumOriginal : Json)
deriving DecidableEq

/-- The `url` field of a slot (`mainEntityUrls` entry). -/
def LSlot.url : LSlot → Json
  | .err u => u
  | .ok u _ _ => u

def LSlot.isError : LSlot → Bool
  | .err _ => true
  | .ok _ _ _ => false

/-- A slot of `traditionalResults` for one page. -/
inductive TSlot where
  | terr (url : Json)
  | tok (url : Json) (traditional : List Json)
deriving DecidableEq

/-- The deterministic fetch environment `runDomainBenchmark` runs against:
URL resolution outcomes (`new URL` throwing is `none`), the results of the
two llm.json GETs, the per-URL module GET results, and the per-URL
`runTraditionalCrawler` results. -/
structure NetEnv where
  resolveWellKnown : Option String
  manifest1 : Except Unit Json
  manifest2 : Except Unit Json
  resolveModule : Json → Option String
  fetchModule : String → Except Unit Json
  traditional : Json → Except Unit Json

/-- One network request issued by the benchmark. -/
inductive FetchEvent where
  | manifestFetch
  | moduleFetch (url : String)
  | pageFetch (url : Json)
deriving DecidableEq

/-- Fetch and process one module (src/benchmark/compare.js lines 217-284):
a fetch failure or any processing error fills the slot with
`{status: 'error', url: modUrl}`; success records the canonical URL, the
kept records and the original checksum value. Slots are written at their
module's manifest index, so the phase result is this map in manifest
order. -/
def processModule (env : NetEnv) (modUrl : String) : LSlot :=
  match env.fetchModule modUrl with
  | .error _ => .err (.str modUrl)
  | .ok modJson =>
    match processPayload modJson with
    | .error _ => .err (.str modUrl)
    | .ok (schemas, co, cu) => .ok cu schemas co

/-- The LangShake phase over the resolved module URLs: the index-aligned
slot array of `langshakeResults[1..]`. -/
def langshakePhase (env : NetEnv) (moduleUrls : List String) : List LSlot :=
  moduleUrls.map (processModule env)

/-- Fetch and post-process one page in the traditional phase
(src/benchmark/compare.js lines 339-372): a crawler failure yields an
error slot; a trailing element with a truthy `checksum` field is dropped
(accessing `.checksum` on a `null` last element throws into the catch). -/
def processTraditional (env : NetEnv) (url : Json) : TSlot :=
  match env.traditional url with
  | .error _ => .terr url
  | .ok result =>
    let tArr := match result with | .arr xs => xs | _ => []
    match tArr.getLast? with
    | none => .tok url []
    | some last =>
      match jsGet last "checksum" with
      | .error _ => .terr url
      | .ok c => .tok url (if truthyOpt c then tArr.dropLast else tArr)

/-- The per-page comparison record (src/benchmark/compare.js 403-416). -/
structure PageComparison where
  schemasMatch : Bool
  langshakeChecksum : String
  langshakeChecksumOriginal : Json
  langshakeChecksumValid : Option Bool
  traditionalChecksum : String
  traditionalChecksumMatchesLangshake : Bool
  diffMissingInTraditional : Option (List String)
  diffMissingInLangshake : Option (List String)
deriving DecidableEq

/-- One element of the `pages` array (src/benchmark/compare.js 382-417). -/
structure PageResult where
  url : Json
  langshake : List Json
  traditional : List Json
  comparison : PageComparison
deriving DecidableEq

/-- Build one `pages` element from the two phases' index-aligned slots
(src/benchmark/compare.js lines 382-417). -/
def buildPage (ls : LSlot) (ts : TSlot) : PageResult :=
  let langshake := match ls with | .ok _ l _ => l | .err _ => []
  let traditional := match ts with | .tok _ t => t | .terr _ => []
  let lchk := calculateModuleChecksum langshake
  let tchk := calculateModuleChecksum traditional
  let schemasMatch := stableStringify (.arr langshake) == stableStringify (.arr traditional)
  let co := match ls with
    | .ok _ _ c => if truthy c then c else .null
    | .err _ => .null
  let diffT := match traditional.head? with
    | some t0 => if truthy t0 then jsKeys t0 else []
    | none => []
  let diffL := match langshake.head? with
    | some l0 => if truthy l0 then jsKeys l0 else []
    | none => []
  { url := ls.url, langshake := langshake, traditional := traditional,
    comparison :=
      { schemasMatch := schemasMatch,
        langshakeChecksum := lchk,
        langshakeChecksumOriginal := co,
        langshakeChecksumValid :=
          if truthy co then some (jsStrictEq (.str lchk) co) else none,
        traditionalChecksum := tchk,
        traditionalChecksumMatchesLangshake := tchk == lchk,
        diffMissingInTraditional :=
          if schemasMatch then none
          else some (diffL.filter (fun k => ¬ diffT.contains k)),
        diffMissingInLangshake :=
          if schemasMatch then none
          else some (diffT.filter (fun k => ¬ diffL.contains k)) } }

/-- The aggregate summary object (src/benchmark/compare.js 418-437). -/
structure Summary where
  totalPages : Nat
  allMatch : Bool
  merkleRootLangshake : String
  merkleRootTraditional : String
  merkleRootLlmJson : Json
  merkleRootLangshakeValid : Bool
  merkleRootTraditionalValid : Bool
  merkleRootsMatch : Bool
deriving DecidableEq

/-- Build the summary from the pages and the manifest's declared root value
(`llmMerkleRoot`, which is the truthy declared root or JS `null`), exactly
as src/benchmark/compare.js lines 418-437 do: the checksum lists are
`filter(Boolean)`-ed, each computed root is strict-equality-compared to
the declared value, and `merkleRootsMatch` additionally requires the
LangShake root to equal the declared value. -/
def mkSummary (pages : List PageResult) (llmMerkleRoot : Json) : Summary :=
  let lchks := (pages.map (fun p => p.comparison.langshakeChecksum)).filter (fun s => s != "")
  let tchks := (pages.map (fun p => p.comparison.traditionalChecksum)).filter (fun s => s != "")
  let lroot := calculateMerkleRoot lchks
  let troot := calculateMerkleRoot tchks
  { totalPages := pages.length,
    allMatch := pages.all (fun p => p.comparison.schemasMatch),
    merkleRootLangshake := lroot,
    merkleRootTraditional := troot,
    merkleRootLlmJson := llmMerkleRoot,
    merkleRootLangshakeValid := jsStrictEq (.str lroot) llmMerkleRoot,
    merkleRootTraditionalValid := jsStrictEq (.str troot) llmMerkleRoot,
    merkleRootsMatch := (lroot == troot) && jsStrictEq (.str lroot) llmMerkleRoot }

/-- The benchmark's observable outcome: a fatal error-tagged result (with
or without the `metrics` key), an uncaught exception (rejected promise), or
the fully populated result. -/
inductive BenchResult where
  | fatal (error : String)
  | fatalMetrics (error : String)
  | crash
  | done (pages : List PageResult) (summary : Summary)
deriving DecidableEq

def msgNotReady : String :=
  "This website is not LangShake ready: .well-known/llm.json not found."

def msgNoModules : String :=
  "This website is not LangShake ready: no modules found in .well-known/llm.json."

def msgEmptyModules : String :=
  "The modules array in .well-known/llm.json is empty. Merkle root cannot be confirmed."

def msgManifestRefetchFailed : String := "Failed to fetch .well-known/llm.json"

/-- Phase 1 onwards of `runDomainBenchmark`, entered once the early
manifest checks passed (src/benchmark/compare.js lines 116-459): refetch
llm.json as item 0, rebuild the module URL list from the refetched body,
run the module slots, feed `mainEntityUrls` (the slot URLs) to the
traditional phase, then build pages and summary. -/
def runPhases (env : NetEnv) (llmMerkleRoot : Json) : BenchResult × List FetchEvent :=
  match env.manifest2 with
  | .error _ => (.fatalMetrics msgManifestRefetchFailed, [.manifestFetch, .manifestFetch])
  | .ok llmJson2 =>
    match jsGet llmJson2 "modules" with
    | .error _ => (.fatalMetrics msgManifestRefetchFailed, [.manifestFetch, .manifestFetch])
    | .ok mv2 =>
      let moduleUrls :=
        match mv2 with
        | some (.arr mods) => mods.filterMap env.resolveModule
        | _ => []
      let slots := langshakePhase env moduleUrls
      let tslots := slots.map (fun s => processTraditional env s.url)
      let pages := (slots.zip tslots).map (fun p => buildPage p.1 p.2)
      (.done pages (mkSummary pages llmMerkleRoot),
        [.manifestFetch, .manifestFetch] ++ moduleUrls.map FetchEvent.moduleFetch
          ++ slots.map (fun s => FetchEvent.pageFetch s.url))

/-- The embedding of `runDomainBenchmark(domainRoot)` against a
deterministic fetch environment, returning the result together with the
trace of requests issued. Lines 74-89: resolve and fetch
`/.well-known/llm.json` (a resolution or fetch failure is the fatal
not-LangShake-ready return). Lines 91-114: read `llmJson.modules` (a plain
property access — it throws uncaught on a `null` body), reject a non-array
(`msgNoModules`) and an empty array (`msgEmptyModules`). Then the phases
run. -/
def runDomainBenchmark (env : NetEnv) : BenchResult × List FetchEvent :=
  match env.resolveWellKnown with
  | none => (.fatal msgNotReady, [])
  | some _ =>
    match env.manifest1 with
    | .error _ => (.fatal msgNotReady, [.manifestFetch])
    | .ok llmJson =>
      let llmMerkleRoot := orNull (optChain2 llmJson "verification" "merkleRoot")
      match jsGet llmJson "modules" with
      | .error _ => (.crash, [.manifestFetch])
      | .ok modulesVal =>
        match modulesVal with
        | some (.arr mods) =>
          if mods.length = 0 then (.fatal msgEmptyModules, [.manifestFetch])
          else runPhases env llmMerkleRoot
        | _ => (.fatal msgNoModules, [.manifestFetch])

/-! ## Lemmas: the key order -/

theorem lexLe_total : ∀ as bs, lexLe as bs = true ∨ lexLe bs as = true
  | [], _ => by left; rfl
  | _ :: _, [] => by right; rfl
  | a :: as, b :: bs => by
    rcases lt_trichotomy a b with h | h | h
    · left; simp [lexLe, h]
    · subst h
      rcases lexLe_total as bs with ih | ih
      · left; simp [lexLe, ih]
      · right; simp [lexLe, ih]
    · right; simp [lexLe, h]

theorem lexLe_trans : ∀ as bs cs, lexLe as bs = true → lexLe bs cs = true →
    lexLe as cs = true
  | [], _, _ => by intro _ _; rfl
  | _ :: _, [], _ => by intro h _; simp [lexLe] at h
  | _ :: _, _ :: _, [] => by intro _ h; simp [lexLe] at h
  | a :: as, b :: bs, c :: cs => by
    intro h1 h2
    simp only [lexLe] at h1 h2 ⊢
    by_cases hab : a < b
    · simp [hab] at h1
      by_cases hbc : b < c
      · simp [lt_trans hab hbc]
      · by_cases hcb : c < b
        · simp [hbc, hcb] at h2
        · have hbc2 : b = c := le_antisymm (not_lt.mp hcb) (not_lt.mp hbc)
          subst hbc2
          simp [hab]
    · by_cases hba : b < a
      · simp [hab, hba] at h1
      · have hba2 : a = b := le_antisymm (not_lt.mp hba) (not_lt.mp hab)
        subst hba2
        simp only [lt_irrefl, if_false] at h1
        by_cases hac : a < c
        · simp [hac]
        · by_cases hca : c < a
          · simp [hac, hca] at h2
          · simp only [hac, hca, if_false]
            simp only [hac, hca, if_false] at h2
            exact lexLe_trans as bs cs h1 h2

theorem lexLe_antisymm : ∀ as bs, lexLe as bs = true → lexLe bs as = true → as = bs
  | [], [] => by intro _ _; rfl
  | [], _ :: _ => by intro _ h; simp [lexLe] at h
  | _ :: _, [] => by intro h _; simp [lexLe] at h
  | a :: as, b :: bs => by
    intro h1 h2
    simp only [lexLe] at h1 h2
    by_cases hab : a < b
    · simp [hab, asymm hab, lt_irrefl] at h2
    · by_cases hba : b < a
      · simp [hab, hba] at h1
      · have hba2 : a = b := le_antisymm (not_lt.mp hba) (not_lt.mp hab)
        subst hba2
        simp only [lt_irrefl, if_false] at h1 h2
        rw [lexLe_antisymm as bs h1 h2]

instance : IsTotal String keyLe :=
  ⟨fun a b => lexLe_total a.data b.data⟩

instance : IsTrans String keyLe :=
  ⟨fun a b c h1 h2 => lexLe_trans a.data b.data c.data h1 h2⟩

instance : IsAntisymm String keyLe := by
  refine ⟨fun a b h1 h2 => ?_⟩
  cases a
  cases b
  exact congrArg String.mk (lexLe_antisymm _ _ h1 h2)

theorem sortKeys_perm (l : List String) : (sortKeys l).Perm l :=
  List.perm_insertionSort keyLe l

theorem sortKeys_sorted (l : List String) : List.Sorted keyLe (sortKeys l) :=
  List.sorted_insertionSort keyLe l

theorem sortKeys_eq_of_perm {l l2 : List String} (h : l.Perm l2) :
    sortKeys l = sortKeys l2 :=
  List.eq_of_perm_of_sorted
    ((sortKeys_perm l).trans (h.trans (sortKeys_perm l2).symm))
    (sortKeys_sorted l) (sortKeys_sorted l2)

theorem sortKeys_sortKeys (l : List String) : sortKeys (sortKeys l) = sortKeys l :=
  sortKeys_eq_of_perm (sortKeys_perm l)

/-! ## Lemmas: association-list lookup -/

theorem lookup_eq_none_of_not_mem {β : Type} :
    ∀ (l : List (String × β)) (k : String), k ∉ l.map Prod.fst → l.lookup k = none
  | [], _, _ => rfl
  | (k2, v) :: es, k, h => by
    simp only [List.map_cons, List.mem_cons] at h
    push_neg at h
    simp only [List.lookup_cons]
    have he : (k == k2) = false := by
      simpa using fun hk => h.1 hk
    rw [he]
    exact lookup_eq_none_of_not_mem es k h.2

theorem lookup_isSome_of_mem {β : Type} :
    ∀ (l : List (String × β)) (k : String), k ∈ l.map Prod.fst → (l.lookup k).isSome
  | [], _, h => by simp at h
  | (k2, v) :: es, k, h => by
    simp only [List.lookup_cons]
    cases he : k == k2 with
    | true => rfl
    | false =>
      simp only [List.map_cons, List.mem_cons] at h
      rcases h with h | h
      · exact absurd h (by simpa using he)
      · exact lookup_isSome_of_mem es k h

theorem lookup_mapSnd {β γ : Type} (f : β → γ) :
    ∀ (l : List (String × β)) (k : String),
      (l.map (fun kv => (kv.1, f kv.2))).lookup k = (l.lookup k).map f
  | [], _ => rfl
  | (k2, v) :: es, k => by
    simp only [List.map_cons, List.lookup_cons]
    cases he : k == k2 with
    | true => rfl
    | false => exact lookup_mapSnd f es k

/-! ## Lemmas: reassemble -/

theorem reassemble_nil {β : Type} (l : List (String × β)) : reassemble [] l = [] := rfl

theorem reassemble_cons {β : Type} (k2 : String) (ks : List String) (l : List (String × β)) :
    reassemble (k2 :: ks) l =
      match l.lookup k2 with
      | none => reassemble ks l
      | some v => (k2, v) :: reassemble ks l := by
  simp only [reassemble, List.filterMap_cons]
  cases l.lookup k2 <;> rfl

theorem lookup_reassemble {β : Type} :
    ∀ (ks : List String) (l : List (String × β)) (k : String),
      (k ∉ ks → l.lookup k = none) → (reassemble ks l).lookup k = l.lookup k
  | [], l, k, h => by
    rw [reassemble_nil]
    exact (h (by simp)).symm
  | k2 :: ks, l, k, h => by
    rw [reassemble_cons]
    cases hl : l.lookup k2 with
    | none =>
      by_cases he : k = k2
      · subst he
        exact lookup_reassemble ks l k (fun _ => hl)
      · exact lookup_reassemble ks l k
          (fun hm => h (by simp only [List.mem_cons]; push_neg; exact ⟨he, hm⟩))
    | some v =>
      simp only [List.lookup_cons]
      cases he : k == k2 with
      | true =>
        have hkk : k = k2 := by simpa using he
        subst hkk
        exact hl.symm
      | false =>
        exact lookup_reassemble ks l k
          (fun hm => h (by
            simp only [List.mem_cons]
            push_neg
            exact ⟨by simpa using he, hm⟩))

theorem mapfst_reassemble {β : Type} :
    ∀ (ks : List String) (l : List (String × β)),
      (∀ k ∈ ks, k ∈ l.map Prod.fst) → (reassemble ks l).map Prod.fst = ks
  | [], _, _ => rfl
  | k :: ks, l, h => by
    rw [reassemble_cons]
    cases hl : l.lookup k with
    | none =>
      exact absurd (lookup_isSome_of_mem l k (h k (by simp))) (by simp [hl])
    | some v =>
      simp only [List.map_cons]
      rw [mapfst_reassemble ks l (fun k2 hk2 => h k2 (by simp [hk2]))]

theorem reassemble_mapSnd {β γ : Type} (f : β → γ) :
    ∀ (ks : List String) (l : List (String × β)),
      reassemble ks (l.map (fun kv => (kv.1, f kv.2))) =
        (reassemble ks l).map (fun kv => (kv.1, f kv.2))
  | [], _ => rfl
  | k :: ks, l => by
    rw [reassemble_cons, reassemble_cons, lookup_mapSnd]
    cases hl : l.lookup k with
    | none => exact reassemble_mapSnd f ks l
    | some v => simpa using reassemble_mapSnd f ks l

/-! ## Lemmas: stringify and the canonical form -/

theorem stringifyList_eq_map :
    ∀ xs : List Json, stringifyList xs = xs.map stableStringify
  | [] => rfl
  | x :: xs => by rw [stringifyList, List.map_cons, stringifyList_eq_map xs]

theorem stringifyEntries_eq_map :
    ∀ kvs : List (String × Json),
      stringifyEntries kvs = kvs.map (fun kv => (kv.1, stableStringify kv.2))
  | [] => rfl
  | (k, v) :: kvs => by
    rw [stringifyEntries, List.map_cons, stringifyEntries_eq_map kvs]

theorem canonList_eq_map : ∀ xs : List Json, canonList xs = xs.map canonJson
  | [] => rfl
  | x :: xs => by rw [canonList, List.map_cons, canonList_eq_map xs]

theorem canonEntries_eq_map :
    ∀ kvs : List (String × Json),
      canonEntries kvs = kvs.map (fun kv => (kv.1, canonJson kv.2))
  | [] => rfl
  | (k, v) :: kvs => by rw [canonEntries, List.map_cons, canonEntries_eq_map kvs]

theorem mapfst_stringifyEntries (kvs : List (String × Json)) :
    (stringifyEntries kvs).map Prod.fst = kvs.map Prod.fst := by
  rw [stringifyEntries_eq_map, List.map_map]
  rfl

theorem mapfst_canonEntries (kvs : List (String × Json)) :
    (canonEntries kvs).map Prod.fst = kvs.map Prod.fst := by
  rw [canonEntries_eq_map, List.map_map]
  rfl

/-- Re-sorting an association list whose serialized entries are assembled
by `stringifyObj` changes nothing: the sorted key list is the same, and
each key looks up the same serialized value. -/
theorem stringifyObj_reassemble (sl : List (String × String)) :
    stringifyObj (reassemble (sortKeys (sl.map Prod.fst)) sl) = stringifyObj sl := by
  have hks : (reassemble (sortKeys (sl.map Prod.fst)) sl).map Prod.fst =
      sortKeys (sl.map Prod.fst) :=
    mapfst_reassemble _ sl
      (fun k hk => (sortKeys_perm (sl.map Prod.fst)).mem_iff.mp hk)
  unfold stringifyObj
  rw [hks, sortKeys_sortKeys]
  have hmap : (sortKeys (sl.map Prod.fst)).map
        (fun k => jsonQuote k ++ ":" ++
          ((reassemble (sortKeys (sl.map Prod.fst)) sl).lookup k).getD "") =
      (sortKeys (sl.map Prod.fst)).map
        (fun k => jsonQuote k ++ ":" ++ ((sl.lookup k).getD "")) := by
    apply List.map_congr_left
    intro k _
    rw [lookup_reassemble _ sl k]
    intro hk
    exact lookup_eq_none_of_not_mem sl k
      (fun hm => hk ((sortKeys_perm (sl.map Prod.fst)).mem_iff.mpr hm))
  rw [hmap]

/-! ## Sizes, for strong induction over `Json` -/

mutual

def jsonSize : Json → Nat
  | .null => 1
  | .bool _ => 1
  | .num _ => 1
  | .str _ => 1
  | .arr xs => 1 + jsonSizeList xs
  | .obj kvs => 1 + jsonSizeEntries kvs

def jsonSizeList : List Json → Nat
  | [] => 0
  | x :: xs => jsonSize x + jsonSizeList xs

def jsonSizeEntries : List (String × Json) → Nat
  | [] => 0
  | (_, v) :: kvs => jsonSize v + jsonSizeEntries kvs

end

theorem jsonSize_le_of_mem : ∀ {xs : List Json} {x : Json}, x ∈ xs →
    jsonSize x ≤ jsonSizeList xs
  | y :: ys, x, h => by
    rw [jsonSizeList]
    rcases List.mem_cons.mp h with h | h
    · subst h; omega
    · have := jsonSize_le_of_mem h
      omega

theorem jsonSize_le_of_mem_entries : ∀ {kvs : List (String × Json)} {k : String} {v : Json},
    (k, v) ∈ kvs → jsonSize v ≤ jsonSizeEntries kvs
  | (k2, v2) :: es, k, v, h => by
    rw [jsonSizeEntries]
    rcases List.mem_cons.mp h with h | h
    · cases h; omega
    · have := jsonSize_le_of_mem_entries h
      omega

/-- Pointwise hypothesis transfer for stringified lists. -/
theorem stringifyList_congr {xs : List Json}
    (h : ∀ x ∈ xs, stableStringify (canonJson x) = stableStringify x) :
    stringifyList (canonList xs) = stringifyList xs := by
  rw [stringifyList_eq_map, stringifyList_eq_map, canonList_eq_map, List.map_map]
  exact List.map_congr_left (fun x hx => h x hx)

/-- Pointwise hypothesis transfer for stringified entry lists. -/
theorem stringifyEntries_congr {kvs : List (String × Json)}
    (h : ∀ kv ∈ kvs, stableStringify (canonJson kv.2) = stableStringify kv.2) :
    stringifyEntries (canonEntries kvs) = stringifyEntries kvs := by
  rw [stringifyEntries_eq_map, stringifyEntries_eq_map, canonEntries_eq_map, List.map_map]
  exact List.map_congr_left (fun kv hkv => by
    simp only [Function.comp]
    rw [h kv hkv])

/-- Serializing the canonical form gives the same string as serializing the
value itself: `stableStringify` already sorts object keys, so the explicit
recursive key sort of `canonJson` is invisible to it. -/
theorem stringify_canon_le : ∀ (n : Nat) (j : Json), jsonSize j ≤ n →
    stableStringify (canonJson j) = stableStringify j := by
  intro n
  induction n using Nat.strong_induction_on with
  | _ n ih =>
    intro j hj
    cases j with
    | null => rfl
    | bool b => rfl
    | num m => rfl
    | str s => rfl
    | arr xs =>
      rw [canonJson, stableStringify, stableStringify]
      rw [stringifyList_congr (fun x hx => by
        have hlt : jsonSize x < n := by
          have h1 := jsonSize_le_of_mem hx
          rw [jsonSize] at hj
          omega
        exact ih (jsonSize x) hlt x le_rfl)]
    | obj kvs =>
      rw [canonJson, stableStringify, stableStringify]
      have hentries : stringifyEntries (canonEntries kvs) = stringifyEntries kvs :=
        stringifyEntries_congr (fun kv hkv => by
          have hlt : jsonSize kv.2 < n := by
            have h1 : jsonSize kv.2 ≤ jsonSizeEntries kvs :=
              jsonSize_le_of_mem_entries (by simpa using hkv)
            rw [jsonSize] at hj
            omega
          exact ih (jsonSize kv.2) hlt kv.2 le_rfl)
      rw [sortEntriesByKey,
        show stringifyEntries (reassemble (sortKeys ((canonEntries kvs).map Prod.fst))
            (canonEntries kvs)) =
          reassemble (sortKeys ((canonEntries kvs).map Prod.fst))
            (stringifyEntries (canonEntries kvs)) from ?_]
      · rw [hentries, mapfst_canonEntries, ← mapfst_stringifyEntries]
        exact stringifyObj_reassemble (stringifyEntries kvs)
      · rw [stringifyEntries_eq_map, stringifyEntries_eq_map]
        exact (reassemble_mapSnd _ _ _).symm

/-- `stableStringify` is invariant under recursive key reordering. -/
theorem stringify_canonJson (j : Json) :
    stableStringify (canonJson j) = stableStringify j :=
  stringify_canon_le (jsonSize j) j le_rfl

/-- Values that are equal up to recursive key order serialize identically. -/
theorem stringify_eq_of_canon_eq {j j2 : Json} (h : canonJson j = canonJson j2) :
    stableStringify j = stableStringify j2 := by
  rw [← stringify_canonJson j, ← stringify_canonJson j2, h]

/-! ## Lemmas: the module checksum -/

/-- Lists whose records serialize pointwise identically produce identical
serialized index-entry lists (any starting index, any key filter). -/
theorem stringifyEntries_enumFrom_congr :
    ∀ (i : Nat) (recs recs2 : List Json),
      List.Forall₂ (fun a b => stableStringify a = stableStringify b) recs recs2 →
      stringifyEntries ((recs.enumFrom i |>.map (fun p => (natToDec p.1, p.2))).filter
          (fun kv => kv.1 != "checksum")) =
      stringifyEntries ((recs2.enumFrom i |>.map (fun p => (natToDec p.1, p.2))).filter
          (fun kv => kv.1 != "checksum"))
  | _, [], [], .nil => rfl
  | i, a :: as, b :: bs, .cons hab hrest => by
    rw [List.enumFrom_cons, List.enumFrom_cons, List.map_cons, List.map_cons,
      List.filter_cons, List.filter_cons]
    have ih := stringifyEntries_enumFrom_congr (i + 1) as bs hrest
    cases hk : (natToDec i != "checksum") with
    | false => simpa using ih
    | true =>
      simp only [if_pos]
      rw [stringifyEntries, stringifyEntries, hab, ih]

/-- The checksum only depends on each record's serialization. -/
theorem calculateModuleChecksum_congr {recs recs2 : List Json}
    (h : List.Forall₂ (fun a b => stableStringify a = stableStringify b) recs recs2) :
    calculateModuleChecksum recs = calculateModuleChecksum recs2 := by
  unfold calculateModuleChecksum
  have core := stringifyEntries_enumFrom_congr 0 recs recs2 h
  have he : ∀ l : List Json, (indexEntries l).filter (fun kv => kv.1 != "checksum") =
      (l.enumFrom 0 |>.map (fun p => (natToDec p.1, p.2))).filter
        (fun kv => kv.1 != "checksum") := fun _ => rfl
  rw [show (∀ F F2 : List (String × Json), stringifyEntries F = stringifyEntries F2 →
      sha256Hex (stableStringify (.obj F)) = sha256Hex (stableStringify (.obj F2))) from ?_]
  · exact core
  · intro F F2 hF
    rw [stableStringify, stableStringify, hF]

/-! ## Lemmas: decimal index keys -/

theorem natToDecAux_digit_head :
    ∀ (fuel : Nat), 1 ≤ fuel → ∀ (n : Nat) (acc : List Char),
      ∃ d rest, d < 10 ∧ natToDecAux fuel n acc = Nat.digitChar d :: rest := by
  intro fuel
  induction fuel with
  | zero => omega
  | succ f ihf =>
    intro _ n acc
    rw [natToDecAux]
    by_cases h : n < 10
    · exact ⟨n, acc, h, by rw [if_pos h]⟩
    · rw [if_neg h]
      cases f with
      | zero =>
        exact ⟨n % 10, acc, Nat.mod_lt _ (by omega), by rw [natToDecAux]⟩
      | succ f2 => exact ihf (by omega) (n / 10) _

theorem natToDec_ne_checksum (n : Nat) : natToDec n ≠ "checksum" := by
  obtain ⟨d, rest, hd, he⟩ := natToDecAux_digit_head (n + 1) (by omega) n []
  rw [natToDec, he]
  intro hc
  have hdata : Nat.digitChar d :: rest = "checksum".data := congrArg String.data hc
  have hhead : Nat.digitChar d = 'c' := by
    have : "checksum".data = 'c' :: "hecksum".data := by decide
    rw [this] at hdata
    exact (List.cons_eq_cons.mp hdata).1
  interval_cases d <;> simp [Nat.digitChar] at hhead

/-- The top-level `checksum` filter inside `calculateModuleChecksum` never
drops anything when the argument is an array: decimal index keys are never
the string `checksum`. -/
theorem indexEntries_filter (recs : List Json) :
    (indexEntries recs).filter (fun kv => kv.1 != "checksum") = indexEntries recs := by
  rw [List.filter_eq_self]
  intro kv hkv
  obtain ⟨p, _, rfl⟩ := List.mem_map.mp hkv
  simpa using natToDec_ne_checksum p.1

theorem mapfst_indexEntries (recs : List Json) :
    (indexEntries recs).map Prod.fst = (List.range recs.length).map natToDec := by
  unfold indexEntries
  rw [List.map_map, ← List.enum_map_fst recs, List.map_map]
  rfl

/-! ## Lemmas: the Merkle collapse -/

theorem hashPairs_length : ∀ l : List String, (hashPairs l).length = (l.length + 1) / 2
  | [] => rfl
  | [a] => by simp [hashPairs]
  | a :: b :: rest => by
    rw [hashPairs, List.length_cons, hashPairs_length rest]
    simp only [List.length_cons]
    omega

/-- The fuel used by `merkleLoop` is irrelevant once it covers the level
length: the loop always terminates by exhausting the level first. -/
theorem merkleLoop_norm : ∀ (fuel : Nat) (l : List String), l.length ≤ fuel →
    merkleLoop fuel l = merkleLoop l.length l := by
  intro fuel
  induction fuel using Nat.strong_induction_on with
  | _ fuel ih =>
    intro l hl
    match fuel, hl with
    | 0, hl =>
      have : l.length = 0 := by omega
      rw [this]
    | g + 1, hl =>
      by_cases hlen : l.length ≤ 1
      · rw [merkleLoop, if_pos hlen]
        match l, hlen with
        | [], _ => rfl
        | [a], _ => rfl
      · have h2 : 2 ≤ l.length := by omega
        obtain ⟨m, hm⟩ : ∃ m, l.length = m + 1 := ⟨l.length - 1, by omega⟩
        have hhp : (hashPairs l).length = (l.length + 1) / 2 := hashPairs_length l
        rw [merkleLoop, if_neg hlen, hm, merkleLoop, if_neg (by omega)]
        have e1 : merkleLoop g (hashPairs l) =
            merkleLoop (hashPairs l).length (hashPairs l) :=
          ih g (by omega) (hashPairs l) (by omega)
        have e2 : merkleLoop m (hashPairs l) =
            merkleLoop (hashPairs l).length (hashPairs l) :=
          ih m (by omega) (hashPairs l) (by omega)
        rw [e1, e2]

/-- One step of the Merkle collapse: with at least two leaves, the root of
a level equals the root of the hashed-pairs level. -/
theorem calculateMerkleRoot_step (l : List String) (h : 2 ≤ l.length) :
    calculateMerkleRoot l = calculateMerkleRoot (hashPairs l) := by
  unfold calculateMerkleRoot
  have hhp : (hashPairs l).length = (l.length + 1) / 2 := hashPairs_length l
  rw [if_neg (by omega), if_neg (by omega)]
  obtain ⟨m, hm⟩ : ∃ m, l.length = m + 1 := ⟨l.length - 1, by omega⟩
  rw [hm, merkleLoop, if_neg (by omega)]
  rw [merkleLoop_norm m (hashPairs l) (by omega),
    merkleLoop_norm (hashPairs l).length (hashPairs l) le_rfl]

/-- Strict equality against a string value holds exactly for that string. -/
theorem jsStrictEq_str_iff (s : String) (j : Json) :
    jsStrictEq (.str s) j = true ↔ j = .str s := by
  cases j <;> simp [jsStrictEq]
  exact eq_comm

/-! ## Claim C1 -/

/-- Claim C1: `calculateMerkleRoot` returns the empty string on the empty
list and the single leaf unchanged on a one-element list; on longer lists
it collapses the level bottom-up, replacing each adjacent pair by the hex
SHA-256 of the concatenation of their hex texts and pairing a dangling
last leaf with itself, until one hash remains; and it is deterministic on
identical leaf lists. -/
theorem merkle_root_spec :
    calculateMerkleRoot [] = "" ∧
    (∀ h : String, calculateMerkleRoot [h] = h) ∧
    (∀ l : List String, 2 ≤ l.length →
      calculateMerkleRoot l = calculateMerkleRoot (hashPairs l)) ∧
    (∀ (a b : String) (rest : List String),
      hashPairs (a :: b :: rest) = sha256Hex (a ++ b) :: hashPairs rest) ∧
    (∀ a : String, hashPairs [a] = [sha256Hex (a ++ a)]) ∧
    (∀ l l2 : List String, l = l2 → calculateMerkleRoot l = calculateMerkleRoot l2) := by
  refine ⟨rfl, ?_, calculateMerkleRoot_step, fun a b rest => rfl, fun a => rfl,
    fun l l2 h => by rw [h]⟩
  intro h
  simp [calculateMerkleRoot, merkleLoop]

/-- Witness for C1 at a concrete three-leaf list. -/
theorem merkle_root_spec_witness :
    2 ≤ (["a", "b", "c"] : List String).length ∧
    calculateMerkleRoot ["a", "b", "c"] = calculateMerkleRoot (hashPairs ["a", "b", "c"]) ∧
    calculateMerkleRoot ["x"] = "x" :=
  ⟨by decide, merkle_root_spec.2.2.1 ["a", "b", "c"] (by decide), merkle_root_spec.2.1 "x"⟩

/-! ## Claim C2 -/

/-- Claim C2: the module checksum is invariant under reordering the keys
inside any record — two record lists that are pointwise equal up to
recursive key order (equal canonical forms) produce the same checksum —
but it is sensitive to the order of elements in the record list: permuting
two distinct records changes the checksum, witnessed at a concrete pair of
records. -/
theorem checksum_key_order_invariant :
    (∀ recs recs2 : List Json,
      List.Forall₂ (fun a b => canonJson a = canonJson b) recs recs2 →
      calculateModuleChecksum recs = calculateModuleChecksum recs2) ∧
    (calculateModuleChecksum [.obj [("a", .num 1)], .obj [("a", .num 2)]] ≠
       calculateModuleChecksum [.obj [("a", .num 2)], .obj [("a", .num 1)]] ∧
     List.Perm [Json.obj [("a", .num 1)], Json.obj [("a", .num 2)]]
       [Json.obj [("a", .num 2)], Json.obj [("a", .num 1)]] ∧
     Json.obj [("a", .num 1)] ≠ Json.obj [("a", .num 2)]) := by
  constructor
  · intro recs recs2 h
    exact calculateModuleChecksum_congr (h.imp (fun a b hc => stringify_eq_of_canon_eq hc))
  · refine ⟨by decide, ?_, by decide⟩
    exact List.Perm.swap _ _ _

/-- Witness for C2: two records with the same keys in different orders
yield the same checksum. -/
theorem checksum_key_order_invariant_witness :
    List.Forall₂ (fun a b => canonJson a = canonJson b)
      [Json.obj [("x", .num 1), ("y", .num 2)]]
      [Json.obj [("y", .num 2), ("x", .num 1)]] ∧
    calculateModuleChecksum [Json.obj [("x", .num 1), ("y", .num 2)]] =
      calculateModuleChecksum [Json.obj [("y", .num 2), ("x", .num 1)]] := by
  have hf : List.Forall₂ (fun a b => canonJson a = canonJson b)
      [Json.obj [("x", .num 1), ("y", .num 2)]]
      [Json.obj [("y", .num 2), ("x", .num 1)]] :=
    List.Forall₂.cons (by decide) List.Forall₂.nil
  exact ⟨hf, checksum_key_order_invariant.1 _ _ hf⟩

/-! ## Claim C9 -/

/-- Claim C9: `calculateModuleChecksum` applies `Object.entries` to its
argument, so for every record array the checksum is the SHA-256 hex digest
of the stable stringification of the object keyed by decimal index
strings sorted lexicographically — for 11 records the key order is
0, 1, 10, 2, ..., 9 — and not of the array serialized as a list (shown at
a concrete 11-record list); the checksum of the empty record list is the
SHA-256 of the two-character string holding an open and a close brace. -/
theorem checksum_object_entries_semantics :
    (∀ recs : List Json,
      calculateModuleChecksum recs =
        sha256Hex (stableStringify (.obj (indexEntries recs)))) ∧
    (∀ recs : List Json, recs.length = 11 →
      sortKeys ((indexEntries recs).map Prod.fst) =
        ["0", "1", "10", "2", "3", "4", "5", "6", "7", "8", "9"]) ∧
    (calculateModuleChecksum [] = sha256Hex "\x7b\x7d") ∧
    (calculateModuleChecksum (List.replicate 11 Json.null) ≠
      sha256Hex (stableStringify (.arr (List.replicate 11 Json.null)))) := by
  refine ⟨?_, ?_, by decide, by decide⟩
  · intro recs
    unfold calculateModuleChecksum
    rw [indexEntries_filter]
  · intro recs h
    rw [mapfst_indexEntries, h]
    decide

/-- Witness for C9 at a concrete 11-record list. -/
theorem checksum_object_entries_semantics_witness :
    (List.replicate 11 Json.null).length = 11 ∧
    sortKeys ((indexEntries (List.replicate 11 Json.null)).map Prod.fst) =
      ["0", "1", "10", "2", "3", "4", "5", "6", "7", "8", "9"] :=
  ⟨by decide, checksum_object_entries_semantics.2.1 _ (by decide)⟩

/-! ## Claim C7 -/

/-- C7 as stated is false on the code: `merkleRootsMatch` is not the bare
comparison of the two computed roots. At this concrete input the two
computed roots are equal, yet the flag is false because the manifest
declared no root. -/
theorem summary_flags_counterexample :
    (mkSummary [⟨.null, [], [],
        ⟨true, "aa", .null, none, "aa", true, none, none⟩⟩] Json.null).merkleRootLangshake =
      (mkSummary [⟨.null, [], [],
        ⟨true, "aa", .null, none, "aa", true, none, none⟩⟩] Json.null).merkleRootTraditional ∧
    (mkSummary [⟨.null, [], [],
        ⟨true, "aa", .null, none, "aa", true, none, none⟩⟩] Json.null).merkleRootsMatch = false := by
  decide

/-- Claim C7 (amended): in the aggregate summary,
`merkleRootLangshakeValid` is true iff the Merkle root over the per-page
LangShake checksums strictly equals the manifest's declared root value,
`merkleRootTraditionalValid` is true iff the Traditional root does, and
`merkleRootsMatch` is true iff the two computed roots equal each other AND
the LangShake root equals the manifest's declared root (the code conjoins
the declared-root comparison into the third flag, so it is not the bare
root-to-root comparison the original claim states). -/
theorem summary_flags (pages : List PageResult) (declared : Json) :
    ((mkSummary pages declared).merkleRootLangshakeValid = true ↔
      declared = .str (mkSummary pages declared).merkleRootLangshake) ∧
    ((mkSummary pages declared).merkleRootTraditionalValid = true ↔
      declared = .str (mkSummary pages declared).merkleRootTraditional) ∧
    ((mkSummary pages declared).merkleRootsMatch = true ↔
      ((mkSummary pages declared).merkleRootLangshake =
         (mkSummary pages declared).merkleRootTraditional ∧
       declared = .str (mkSummary pages declared).merkleRootLangshake)) := by
  simp only [mkSummary]
  refine ⟨jsStrictEq_str_iff _ _, jsStrictEq_str_iff _ _, ?_⟩
  rw [Bool.and_eq_true, beq_iff_eq]
  exact and_congr .rfl (jsStrictEq_str_iff _ _)

/-! ## Claim C8 -/

/-- C8 as stated is false on the code: the fetch policy with the 10-second
timeout and 3 retried attempts lives only in `axiosGetWithRetry`
(src/crawlers/langshake.js); the domain benchmark coordinator issues plain
`axios.get` calls with no-cache headers but no timeout, and a failing
module URL is fetched exactly once — no retry — as the request trace of a
concrete one-module run shows. -/
theorem fetch_policy_counterexample :
    compareGetConfig.timeout = none ∧
    compareGetConfig.timeout ≠ some 10000 ∧
    ((runDomainBenchmark
      { resolveWellKnown := some "wk",
        manifest1 := .ok (.obj [("modules", .arr [.str "m"])]),
        manifest2 := .ok (.obj [("modules", .arr [.str "m"])]),
        resolveModule := fun p => match p with | .str s => some s | _ => none,
        fetchModule := fun _ => .error (),
        traditional := fun _ => .error () }).2).count (.moduleFetch "m") = 1 := by
  refine ⟨rfl, by decide, ?_⟩
  decide

/-- Claim C8 (amended): `axiosGetWithRetry` issues every attempt with
no-cache headers and a fixed 10000 ms timeout, retries up to 3 attempts
with a fixed 500 ms delay between attempts, propagates the third failed
attempt with no further retry — and this retry policy applies to the
langshake crawler's fetches only: the coordinator's plain GET
configuration carries the no-cache headers but no timeout. -/
theorem fetch_policy :
    (∀ options : AxiosConfig,
      (axiosGetWithRetryConfig options).timeout = some 10000 ∧
      ("Cache-Control", "no-cache") ∈ (axiosGetWithRetryConfig options).headers ∧
      ("Pragma", "no-cache") ∈ (axiosGetWithRetryConfig options).headers) ∧
    axiosRetries = 3 ∧ axiosDelayMs = 500 ∧
    (∀ attempt : Nat → Except Unit Json,
      (∀ r, attempt 1 = .ok r →
        axiosGetWithRetry attempt axiosRetries axiosDelayMs = (.ok r, 1, [])) ∧
      (∀ r, attempt 1 = .error () → attempt 2 = .ok r →
        axiosGetWithRetry attempt axiosRetries axiosDelayMs = (.ok r, 2, [500])) ∧
      (attempt 1 = .error () → attempt 2 = .error () →
        axiosGetWithRetry attempt axiosRetries axiosDelayMs = (attempt 3, 3, [500, 500]))) ∧
    compareGetConfig.headers = noCacheHeaders ∧
    compareGetConfig.timeout = none := by
  refine ⟨?_, rfl, rfl, ?_, rfl, rfl⟩
  · intro options
    refine ⟨rfl, ?_, ?_⟩
    · simp [axiosGetWithRetryConfig, noCacheHeaders]
    · simp [axiosGetWithRetryConfig, noCacheHeaders]
  · intro attempt
    refine ⟨?_, ?_, ?_⟩
    · intro r h1
      simp [axiosGetWithRetry, axiosRetryLoop, axiosRetries, axiosDelayMs, h1]
    · intro r h1 h2
      simp [axiosGetWithRetry, axiosRetryLoop, axiosRetries, axiosDelayMs, h1, h2]
    · intro h1 h2
      simp [axiosGetWithRetry, axiosRetryLoop, axiosRetries, axiosDelayMs, h1, h2]

/-- Witness for C8 (amended) with an always-failing attempt function. -/
theorem fetch_policy_witness :
    (fun _ : Nat => (Except.error () : Except Unit Json)) 1 = .error () ∧
    (fun _ : Nat => (Except.error () : Except Unit Json)) 2 = .error () ∧
    axiosGetWithRetry (fun _ => .error ()) axiosRetries axiosDelayMs =
      (.error (), 3, [500, 500]) :=
  ⟨rfl, rfl, (fetch_policy.2.2.2.1 (fun _ => .error ())).2.2 rfl rfl⟩

/-! ## Lemmas: property access and subject URLs -/

/-- On a non-null base, plain property access and optional chaining agree
and never throw. -/
theorem jsGet_of_ne_null {j : Json} (h : j ≠ .null) (k : String) :
    jsGet j k = .ok (optChain j k) := by
  cases j with
  | null => exact absurd rfl h
  | bool b => rfl
  | num n => rfl
  | str s => rfl
  | arr xs => rfl
  | obj kvs => rfl

theorem getUrl_of_ne_null {j : Json} (h : j ≠ .null) :
    getUrl j = .ok (jsOr (optChain j "url") (optChain j "og:url")) := by
  unfold getUrl
  rw [jsGet_of_ne_null h, jsGet_of_ne_null h]
  simp only [bind, Except.bind, pure, Except.pure]
  by_cases ht : truthyOpt (optChain j "url") = true
  · simp [ht, jsOr]
  · simp only [Bool.not_eq_true] at ht
    simp [ht, jsOr]

theorem getUrl_ne_null {j : Json} {v : Option Json} (h : getUrl j = .ok v) :
    j ≠ .null := by
  intro he
  subst he
  simp [getUrl, jsGet, bind, Except.bind] at h

/-- Strict equality against a defined string value identifies it. -/
theorem jsStrictEqOpt_str_iff (s : String) (o : Option Json) :
    jsStrictEqOpt (some (.str s)) o = true ↔ o = some (.str s) := by
  cases o with
  | none => simp [jsStrictEqOpt]
  | some j =>
    simp only [jsStrictEqOpt, Option.some.injEq]
    exact jsStrictEq_str_iff s j

/-! ## Claim C5 -/

/-- The payload shape christened by the claim's words: a list of length at
least 2 whose last element is an object containing exactly one field,
literally named `checksum`. Stated from the spec sentence, to be compared
against the code's acceptance. -/
def claimedModuleShape (p : Json) : Bool :=
  match p with
  | .arr xs =>
    2 ≤ xs.length &&
    (match xs.getLast?.getD .null with
     | .obj kvs => kvs.map Prod.fst == ["checksum"]
     | _ => false)
  | _ => false

/-- The payload shape `validateModule` actually accepts: a list of length
at least 2 whose last element is a truthy value of JS type `object` (an
object or an array) carrying a truthy `checksum` field — extra fields in
the last element are permitted. -/
def acceptedModuleShape (p : Json) : Bool :=
  match p with
  | .arr xs =>
    2 ≤ xs.length && truthy (xs.getLast?.getD .null) &&
    typeofObject (xs.getLast?.getD .null) &&
    truthyOpt (optChain (xs.getLast?.getD .null) "checksum")
  | _ => false

/-- C5 as stated is false on the code: a payload whose last element holds
an extra field besides `checksum` is accepted by `validateModule` (no
structural error), although the claim requires exactly one field. -/
theorem validate_module_counterexample :
    (validateModulePayload "m"
      (.arr [.obj [("url", .str "u")],
             .obj [("checksum", .str "abc"), ("extra", .num 1)]])).isUsable = true ∧
    claimedModuleShape
      (.arr [.obj [("url", .str "u")],
             .obj [("checksum", .str "abc"), ("extra", .num 1)]]) = false := by
  constructor
  · decide
  · decide

/-- Claim C5 (amended): `validateModule` returns a usable module (rather
than a structural error) exactly when the payload is a list of length at
least 2 whose last element is a truthy object-typed value with a truthy
`checksum` field — extra fields in the last element are permitted, and a
falsy or missing `checksum`, a non-object last element, a short list or a
non-list all yield a structural error. -/
theorem validate_module_shape (modPath : String) (p : Json) :
    (validateModulePayload modPath p).isUsable = acceptedModuleShape p ∧
    ((validateModulePayload modPath p).isUsable = false ↔
      ∃ msg, validateModulePayload modPath p = .structError msg) := by
  constructor
  · cases p with
    | arr xs =>
      by_cases h2 : xs.length < 2
      · have hn : ¬ (2 ≤ xs.length) := by omega
        simp [validateModulePayload, acceptedModuleShape, h2, hn, ValidateResult.isUsable]
      · have hn : 2 ≤ xs.length := by omega
        by_cases hobj : truthy (xs.getLast?.getD .null) = true ∧
            typeofObject (xs.getLast?.getD .null) = true
        · have hnn : xs.getLast?.getD .null ≠ .null := by
            intro he
            rw [he] at hobj
            exact absurd hobj.1 (by simp [truthy])
          rw [validateModulePayload, if_neg h2, if_neg (by simp [hobj.1, hobj.2]),
            jsGet_of_ne_null hnn]
          by_cases hc : truthyOpt (optChain (xs.getLast?.getD .null) "checksum") = true
          · simp [acceptedModuleShape, ValidateResult.isUsable, hobj.1, hobj.2, hc, hn]
          · simp only [Bool.not_eq_true] at hc
            simp [acceptedModuleShape, ValidateResult.isUsable, hc]
        · rw [validateModulePayload, if_neg h2,
            if_pos (by
              rcases Decidable.not_and_iff_or_not.mp hobj with h | h <;> simp [h])]
          simp only [ValidateResult.isUsable, acceptedModuleShape]
          rcases Decidable.not_and_iff_or_not.mp hobj with h | h <;>
            simp [Bool.eq_false_iff.mpr h]
    | null => rfl
    | bool b => rfl
    | num n => rfl
    | str s => rfl
    | obj kvs => rfl
  · cases hv : validateModulePayload modPath p with
    | structError m => simp [ValidateResult.isUsable]
    | valid a b c => simp [ValidateResult.isUsable]

/-! ## Lemmas: the record filter and the subject-URL check -/

theorem filterUrlRecords_all_kept :
    ∀ records : List Json,
      (∀ r ∈ records, ∃ u, getUrl r = .ok u ∧ truthyOpt u = true) →
      filterUrlRecords records = .ok records
  | [], _ => rfl
  | r :: rest, h => by
    obtain ⟨u, hu, ht⟩ := h r (by simp)
    simp only [filterUrlRecords, bind, Except.bind, pure, Except.pure]
    rw [hu, filterUrlRecords_all_kept rest (fun r2 hr2 => h r2 (by simp [hr2]))]
    simp [ht]

theorem filterUrlRecords_all_dropped :
    ∀ records : List Json,
      (∀ r ∈ records, ∃ u, getUrl r = .ok u ∧ truthyOpt u = false) →
      filterUrlRecords records = .ok []
  | [], _ => rfl
  | r :: rest, h => by
    obtain ⟨u, hu, ht⟩ := h r (by simp)
    simp only [filterUrlRecords, bind, Except.bind, pure, Except.pure]
    rw [hu, filterUrlRecords_all_dropped rest (fun r2 hr2 => h r2 (by simp [hr2]))]
    simp [ht]

/-- With no `null` record, the filter never throws and keeps exactly the
records with a truthy subject URL. -/
theorem filterUrlRecords_eq :
    ∀ records : List Json,
      (∀ r ∈ records, r ≠ .null) →
      filterUrlRecords records =
        .ok (records.filter
          (fun r => truthyOpt (jsOr (optChain r "url") (optChain r "og:url"))))
  | [], _ => rfl
  | r :: rest, h => by
    simp only [filterUrlRecords, bind, Except.bind, pure, Except.pure]
    rw [getUrl_of_ne_null (h r (by simp)),
      filterUrlRecords_eq rest (fun r2 hr2 => h r2 (by simp [hr2])), List.filter_cons]

theorem allUrlsMatchGo_all_eq :
    ∀ (l : List Json) (url : Option Json),
      (∀ r ∈ l, ∃ u, getUrl r = .ok u ∧ jsStrictEqOpt u url = true) →
      allUrlsMatchGo url l = .ok true
  | [], _, _ => rfl
  | r :: rest, url, h => by
    obtain ⟨u, hu, he⟩ := h r (by simp)
    simp only [allUrlsMatchGo, bind, Except.bind]
    rw [hu]
    show (if jsStrictEqOpt u url = true then allUrlsMatchGo url rest else Except.ok false) =
      Except.ok true
    rw [if_pos he]
    exact allUrlsMatchGo_all_eq rest url (fun r2 hr2 => h r2 (by simp [hr2]))

theorem allUrlsMatchGo_mismatch :
    ∀ (l : List Json) (url : Option Json),
      (∀ r ∈ l, ∃ u, getUrl r = .ok u) →
      (∃ r ∈ l, ∃ u, getUrl r = .ok u ∧ jsStrictEqOpt u url = false) →
      allUrlsMatchGo url l = .ok false
  | [], _, _, hw => by simp at hw
  | r :: rest, url, h, hw => by
    obtain ⟨u, hu⟩ := h r (by simp)
    simp only [allUrlsMatchGo, bind, Except.bind]
    rw [hu]
    show (if jsStrictEqOpt u url = true then allUrlsMatchGo url rest else Except.ok false) =
      Except.ok false
    by_cases he : jsStrictEqOpt u url = true
    · rw [if_pos he]
      apply allUrlsMatchGo_mismatch rest url (fun r2 hr2 => h r2 (by simp [hr2]))
      obtain ⟨rw2, hrw, uw, huw, hew⟩ := hw
      rcases List.mem_cons.mp hrw with hr | hr
      · subst hr
        rw [hu] at huw
        cases huw
        exact absurd he (by simp [hew])
      · exact ⟨rw2, hr, uw, huw, hew⟩
    · rw [if_neg he]

/-- All records sharing one truthy string subject URL pass the
consistency check. -/
theorem allUrlsMatch_all_same (records : List Json) (u : String)
    (h : ∀ r ∈ records, getUrl r = .ok (some (.str u))) :
    allUrlsMatch records = .ok true := by
  cases records with
  | nil => rfl
  | cons r rest =>
    simp only [allUrlsMatch, bind, Except.bind]
    rw [h r (by simp)]
    exact allUrlsMatchGo_all_eq (r :: rest) (some (.str u))
      (fun r2 hr2 => ⟨some (.str u), h r2 hr2, by simp [jsStrictEqOpt, jsStrictEq]⟩)

/-- Two records with distinct string subject URLs fail the consistency
check (provided every record's URL evaluates). -/
theorem allUrlsMatch_mismatch (records : List Json) (r1 r2 : Json) (u1 u2 : String)
    (h1 : r1 ∈ records) (h2 : r2 ∈ records)
    (hu1 : getUrl r1 = .ok (some (.str u1))) (hu2 : getUrl r2 = .ok (some (.str u2)))
    (hall : ∀ r ∈ records, ∃ u, getUrl r = .ok u)
    (hne : u1 ≠ u2) :
    allUrlsMatch records = .ok false := by
  cases records with
  | nil => simp at h1
  | cons r rest =>
    obtain ⟨u0, hu0⟩ := hall r (by simp)
    simp only [allUrlsMatch, bind, Except.bind]
    rw [hu0]
    apply allUrlsMatchGo_mismatch (r :: rest) u0 hall
    by_cases he : u0 = some (.str u1)
    · refine ⟨r2, h2, some (.str u2), hu2, ?_⟩
      rw [he]
      simp [jsStrictEqOpt, jsStrictEq]
      exact fun hc => absurd hc.symm hne
    · refine ⟨r1, h1, some (.str u1), hu1, ?_⟩
      rw [Bool.eq_false_iff]
      intro hc
      exact he ((jsStrictEqOpt_str_iff u1 u0).mp hc)

/-! ## Lemmas: evaluating the module payload processing -/

theorem isChecksumForm_concat (r0 : Json) (rest : List Json) (cv : Json) :
    isChecksumForm ((r0 :: rest) ++ [.obj [("checksum", cv)]]) = true := by
  simp only [isChecksumForm, List.getLast?_concat]
  refine (Bool.and_eq_true _ _).mpr ⟨by simp, ?_⟩
  simp [typeofObject, jsKeys, jsHasKey]

/-- The checksum-form branch of the payload processing, evaluated: the
trailing checksum object is peeled off, the remaining records are
filtered by subject URL, the canonical URL is read off the first raw
record, and the subject-URL consistency check gates the success. -/
theorem processPayload_eval (r0 : Json) (rest : List Json) (cv : Json) :
    processPayload (.arr ((r0 :: rest) ++ [.obj [("checksum", cv)]])) =
      (filterUrlRecords (r0 :: rest)).bind (fun schemas =>
        (jsGet r0 "url").bind (fun u1 =>
          (jsGet r0 "og:url").bind (fun u2 =>
            (allUrlsMatch schemas).bind (fun ok =>
              if ok then .ok (schemas, cv, orNull (jsOr u1 u2)) else .error ())))) := by
  rw [processPayload]
  rw [if_neg (by simp [typeofObject])]
  simp only [isChecksumForm_concat, if_pos, List.getLast?_concat, List.dropLast_concat,
    Option.getD_some, bind, Except.bind, pure, Except.pure]
  have hget : ((r0 :: rest) ++ [Json.obj [("checksum", cv)]]).getD 0 .null = r0 := rfl
  rw [hget]
  have hc : jsGet (.obj [("checksum", cv)]) "checksum" = .ok (some cv) := by
    simp [jsGet, List.lookup]
  rw [hc]
  cases hf : filterUrlRecords (r0 :: rest) with
  | error e => rfl
  | ok schemas =>
    cases hg1 : jsGet r0 "url" with
    | error e => rfl
    | ok u1 =>
      cases hg2 : jsGet r0 "og:url" with
      | error e => rfl
      | ok u2 =>
        cases hm : allUrlsMatch schemas with
        | error e => rfl
        | ok b => cases b <;> rfl

theorem truthyOpt_jsOr_false {a b : Option Json} (ha : truthyOpt a = false)
    (hb : truthyOpt b = false) : truthyOpt (jsOr a b) = false := by
  simp [jsOr, ha, hb]

theorem exceptBind_ok {ε α β : Type} (a : α) (f : α → Except ε β) :
    (Except.ok a : Except ε α).bind f = f a := rfl

/-! ## Claim C6 -/

/-- Claim C6: a module whose records disagree on their canonical subject
URL gets a structural-error slot (the inconsistency throw lands in the
module's catch handler), not a partial or merged result; a module whose
records all share one (truthy, string) subject URL gets that URL as its
`canonicalUrl` in a success slot carrying all its records. -/
theorem module_subject_url_consistency :
    (∀ (records : List Json) (cv r1 r2 : Json) (u1 u2 : String) (env : NetEnv)
        (modUrl : String),
      r1 ∈ records → r2 ∈ records →
      getUrl r1 = .ok (some (.str u1)) → getUrl r2 = .ok (some (.str u2)) →
      u1 ≠ u2 →
      (∀ r ∈ records, ∃ u, getUrl r = .ok u ∧ truthyOpt u = true) →
      env.fetchModule modUrl = .ok (.arr (records ++ [.obj [("checksum", cv)]])) →
      processModule env modUrl = .err (.str modUrl)) ∧
    (∀ (records : List Json) (cv : Json) (u : String) (env : NetEnv) (modUrl : String),
      records ≠ [] → u ≠ "" →
      (∀ r ∈ records, getUrl r = .ok (some (.str u))) →
      env.fetchModule modUrl = .ok (.arr (records ++ [.obj [("checksum", cv)]])) →
      processModule env modUrl = .ok (.str u) records cv) := by
  constructor
  · intro records cv r1 r2 u1 u2 env modUrl h1 h2 hu1 hu2 hne hall hfetch
    rcases records with _ | ⟨r0, rest⟩
    · exact absurd h1 (List.not_mem_nil r1)
    obtain ⟨u0, hu0, _⟩ := hall r0 (by simp)
    have hr0 : r0 ≠ .null := getUrl_ne_null hu0
    have hpp : processPayload (.arr ((r0 :: rest) ++ [.obj [("checksum", cv)]])) =
        .error () := by
      rw [processPayload_eval, filterUrlRecords_all_kept _ hall]
      simp only [exceptBind_ok]
      rw [jsGet_of_ne_null hr0, jsGet_of_ne_null hr0]
      simp only [exceptBind_ok]
      rw [allUrlsMatch_mismatch (r0 :: rest) r1 r2 u1 u2 h1 h2 hu1 hu2
        (fun r hr => (hall r hr).imp (fun u hu => hu.1)) hne]
      simp only [exceptBind_ok]
      rfl
    rw [List.cons_append] at hpp
    simp [processModule, hfetch, hpp]
  · intro records cv u env modUrl hne hut hall hfetch
    rcases records with _ | ⟨r0, rest⟩
    · exact absurd rfl hne
    have hr0 : r0 ≠ .null := getUrl_ne_null (hall r0 (by simp))
    have htu : truthyOpt (some (Json.str u)) = true := by
      simp [truthyOpt, truthy, hut]
    have hpp : processPayload (.arr ((r0 :: rest) ++ [.obj [("checksum", cv)]])) =
        .ok (r0 :: rest, cv, .str u) := by
      rw [processPayload_eval,
        filterUrlRecords_all_kept _ (fun r hr => ⟨some (.str u), hall r hr, htu⟩)]
      simp only [exceptBind_ok]
      rw [jsGet_of_ne_null hr0, jsGet_of_ne_null hr0]
      simp only [exceptBind_ok]
      rw [allUrlsMatch_all_same _ u hall]
      simp only [exceptBind_ok]
      have hor : jsOr (optChain r0 "url") (optChain r0 "og:url") = some (.str u) := by
        have h0 := hall r0 (by simp)
        rw [getUrl_of_ne_null hr0] at h0
        exact (Except.ok.injEq _ _).mp h0.symm |>.symm
      rw [if_true, hor]
      simp [orNull, htu]
    rw [List.cons_append] at hpp
    simp [processModule, hfetch, hpp]

/-- Witness for C6 at concrete modules: two records with distinct subject
URLs yield an error slot; two records sharing one subject URL yield a
success slot carrying that URL. -/
theorem module_subject_url_consistency_witness :
    processModule
      { resolveWellKnown := some "wk", manifest1 := .ok .null, manifest2 := .ok .null,
        resolveModule := fun _ => none,
        fetchModule := fun _ => .ok (.arr [.obj [("url", .str "a")],
          .obj [("url", .str "b")], .obj [("checksum", .str "c")]]),
        traditional := fun _ => .error () } "m" = .err (.str "m") ∧
    processModule
      { resolveWellKnown := some "wk", manifest1 := .ok .null, manifest2 := .ok .null,
        resolveModule := fun _ => none,
        fetchModule := fun _ => .ok (.arr [.obj [("url", .str "a")],
          .obj [("url", .str "a"), ("x", .num 1)], .obj [("checksum", .str "c")]]),
        traditional := fun _ => .error () } "m" = .ok (.str "a")
          [.obj [("url", .str "a")], .obj [("url", .str "a"), ("x", .num 1)]]
          (.str "c") := by
  constructor
  · exact module_subject_url_consistency.1
      [.obj [("url", .str "a")], .obj [("url", .str "b")]] (.str "c")
      (.obj [("url", .str "a")]) (.obj [("url", .str "b")]) "a" "b" _ "m"
      (by decide) (by decide) rfl rfl (by decide)
      (by
        intro r hr
        rcases List.mem_cons.mp hr with rfl | hr
        · exact ⟨some (.str "a"), rfl, by decide⟩
        rcases List.mem_cons.mp hr with rfl | hr
        · exact ⟨some (.str "b"), rfl, by decide⟩
        · simp at hr)
      rfl
  · exact module_subject_url_consistency.2
      [.obj [("url", .str "a")], .obj [("url", .str "a"), ("x", .num 1)]] (.str "c")
      "a" _ "m" (by decide) (by decide)
      (by
        intro r hr
        rcases List.mem_cons.mp hr with rfl | hr
        · rfl
        rcases List.mem_cons.mp hr with rfl | hr
        · rfl
        · simp at hr)
      rfl

/-! ## Claim C10 -/

/-- Claim C10: in the coordinator's module processing, every (object)
record lacking both a `url` and an `og:url` field is silently dropped
from the module's record list before the subject-URL consistency check —
the filter keeps exactly the records with a truthy subject URL — and a
module whose records all lack both fields yields a success slot with an
empty record list and a null canonical subject URL rather than an
error. -/
theorem records_without_url_dropped :
    (∀ records : List Json, (∀ r ∈ records, r ≠ .null) →
      filterUrlRecords records =
        .ok (records.filter
          (fun r => truthyOpt (jsOr (optChain r "url") (optChain r "og:url"))))) ∧
    (∀ (records : List Json) (cv : Json) (env : NetEnv) (modUrl : String),
      records ≠ [] →
      (∀ r ∈ records, ∃ kvs, r = .obj kvs ∧ truthyOpt (kvs.lookup "url") = false ∧
        truthyOpt (kvs.lookup "og:url") = false) →
      env.fetchModule modUrl = .ok (.arr (records ++ [.obj [("checksum", cv)]])) →
      processModule env modUrl = .ok .null [] cv) := by
  constructor
  · exact filterUrlRecords_eq
  · intro records cv env modUrl hne hall hfetch
    have hget : ∀ r ∈ records,
        getUrl r = .ok (jsOr (optChain r "url") (optChain r "og:url")) ∧
        truthyOpt (jsOr (optChain r "url") (optChain r "og:url")) = false := by
      intro r hr
      obtain ⟨kvs, rfl, hu, ho⟩ := hall r hr
      exact ⟨getUrl_of_ne_null (by intro h; cases h),
        truthyOpt_jsOr_false (by simpa [optChain] using hu) (by simpa [optChain] using ho)⟩
    rcases records with _ | ⟨r0, rest⟩
    · exact absurd rfl hne
    have hr0 : r0 ≠ .null := by
      obtain ⟨kvs, rfl, _, _⟩ := hall r0 (by simp)
      intro h
      cases h
    have hpp : processPayload (.arr ((r0 :: rest) ++ [.obj [("checksum", cv)]])) =
        .ok ([], cv, .null) := by
      rw [processPayload_eval,
        filterUrlRecords_all_dropped _
          (fun r hr => ⟨_, (hget r hr).1, (hget r hr).2⟩)]
      simp only [exceptBind_ok]
      rw [jsGet_of_ne_null hr0, jsGet_of_ne_null hr0]
      simp only [exceptBind_ok]
      rw [show allUrlsMatch ([] : List Json) = .ok true from rfl]
      simp only [exceptBind_ok]
      rw [if_true]
      have hfal := (hget r0 (by simp)).2
      simp [orNull, hfal]
    rw [List.cons_append] at hpp
    simp [processModule, hfetch, hpp]

/-- Witness for C10: a module whose single record has neither `url` nor
`og:url` yields a success slot with no records and a null canonical
subject URL. -/
theorem records_without_url_dropped_witness :
    processModule
      { resolveWellKnown := some "wk", manifest1 := .ok .null, manifest2 := .ok .null,
        resolveModule := fun _ => none,
        fetchModule := fun _ => .ok (.arr [.obj [("name", .str "x")],
          .obj [("checksum", .str "c")]]),
        traditional := fun _ => .error () } "m" = .ok .null [] (.str "c") :=
  records_without_url_dropped.2 [.obj [("name", .str "x")]] (.str "c") _ "m"
    (by decide)
    (by
      intro r hr
      rcases List.mem_cons.mp hr with rfl | hr
      · exact ⟨[("name", .str "x")], rfl, by decide, by decide⟩
      · simp at hr)
    rfl

/-! ## Claim C3 -/

/-- C3 as stated is false on the code: a manifest body that is JSON `null`
has no `modules` field, yet the benchmark does not return an error-tagged
result for it — the bare property access `llmJson.modules` on line 93
throws an uncaught TypeError and the returned promise rejects. -/
theorem manifest_stage_errors_counterexample :
    runDomainBenchmark
      { resolveWellKnown := some "wk", manifest1 := .ok .null, manifest2 := .ok .null,
        resolveModule := fun _ => none, fetchModule := fun _ => .error (),
        traditional := fun _ => .error () } = (.crash, [.manifestFetch]) ∧
    (∀ msg, (BenchResult.crash : BenchResult) ≠ .fatal msg) ∧
    (∀ msg, (BenchResult.crash : BenchResult) ≠ .fatalMetrics msg) := by
  refine ⟨rfl, ?_, ?_⟩
  · intro msg h
    cases h
  · intro msg h
    cases h

/-- Claim C3 (amended): when the manifest fetch fails, or the fetched
manifest is a non-null value whose `modules` field is missing or not a
list, or the `modules` list is empty, `runDomainBenchmark` returns an
error-tagged result naming the failure, fetches no module and no page,
runs no crawl phase and no comparison, and returns no pages/summary; the
missing/not-a-list case and the present-but-empty case carry distinct
error messages. (A JSON-`null` manifest body instead raises an uncaught
TypeError — see the counterexample.) A failure of the second llm.json
fetch inside phase 1 likewise short-circuits with an error-tagged result
before any module or page fetch. -/
theorem manifest_stage_errors (env : NetEnv) (wk : String) :
    (env.resolveWellKnown = some wk → env.manifest1 = .error () →
      runDomainBenchmark env = (.fatal msgNotReady, [.manifestFetch])) ∧
    (∀ m mv, env.resolveWellKnown = some wk → env.manifest1 = .ok m →
      jsGet m "modules" = .ok mv → (∀ xs, mv ≠ some (.arr xs)) →
      runDomainBenchmark env = (.fatal msgNoModules, [.manifestFetch])) ∧
    (∀ m, env.resolveWellKnown = some wk → env.manifest1 = .ok m →
      jsGet m "modules" = .ok (some (.arr [])) →
      runDomainBenchmark env = (.fatal msgEmptyModules, [.manifestFetch])) ∧
    (∀ m xs, env.resolveWellKnown = some wk → env.manifest1 = .ok m →
      jsGet m "modules" = .ok (some (.arr xs)) → xs ≠ [] → env.manifest2 = .error () →
      runDomainBenchmark env =
        (.fatalMetrics msgManifestRefetchFailed, [.manifestFetch, .manifestFetch])) ∧
    (msgNotReady ≠ msgNoModules ∧ msgNotReady ≠ msgEmptyModules ∧
      msgNoModules ≠ msgEmptyModules) := by
  refine ⟨?_, ?_, ?_, ?_, by decide, by decide, by decide⟩
  · intro h1 h2
    simp [runDomainBenchmark, h1, h2]
  · intro m mv h1 h2 h3 h4
    cases mv with
    | none => simp [runDomainBenchmark, h1, h2, h3]
    | some j =>
      cases j with
      | arr xs => exact absurd rfl (h4 xs)
      | null => simp [runDomainBenchmark, h1, h2, h3]
      | bool b => simp [runDomainBenchmark, h1, h2, h3]
      | num n => simp [runDomainBenchmark, h1, h2, h3]
      | str s => simp [runDomainBenchmark, h1, h2, h3]
      | obj kvs => simp [runDomainBenchmark, h1, h2, h3]
  · intro m h1 h2 h3
    simp [runDomainBenchmark, h1, h2, h3]
  · intro m xs h1 h2 h3 h4 h5
    have hlen : ¬ (xs.length = 0) := by
      simpa [List.length_eq_zero] using h4
    simp [runDomainBenchmark, runPhases, h1, h2, h3, h5, hlen]

/-- Witness for C3 (amended): a failing manifest fetch and an empty
modules list, each at a concrete environment. -/
theorem manifest_stage_errors_witness :
    runDomainBenchmark
      { resolveWellKnown := some "wk", manifest1 := .error (), manifest2 := .error (),
        resolveModule := fun _ => none, fetchModule := fun _ => .error (),
        traditional := fun _ => .error () } = (.fatal msgNotReady, [.manifestFetch]) ∧
    runDomainBenchmark
      { resolveWellKnown := some "wk",
        manifest1 := .ok (.obj [("modules", .arr [])]),
        manifest2 := .error (),
        resolveModule := fun _ => none, fetchModule := fun _ => .error (),
        traditional := fun _ => .error () } = (.fatal msgEmptyModules, [.manifestFetch]) :=
  ⟨(manifest_stage_errors _ "wk").1 rfl rfl,
   (manifest_stage_errors _ "wk").2.2.1 (.obj [("modules", .arr [])]) rfl rfl rfl⟩

/-! ## Claim C4 -/

theorem countP_eq_one_of_unique {α : Type} :
    ∀ (l : List α) (p : α → Bool) (i : Nat), i < l.length →
      (∀ j (hj : j < l.length), (p (l.get ⟨j, hj⟩) = true ↔ j = i)) →
      l.countP p = 1
  | [], _, i, hi, _ => by simp at hi
  | x :: xs, p, i, hi, h => by
    rw [List.countP_cons]
    cases i with
    | zero =>
      have hx : p x = true := (h 0 (by simp)).mpr rfl
      have hxs : xs.countP p = 0 := by
        rw [List.countP_eq_zero]
        intro a ha hpa
        obtain ⟨⟨j, hj⟩, hget⟩ := List.mem_iff_get.mp ha
        have : j + 1 = 0 := (h (j + 1) (by simpa using Nat.succ_lt_succ hj)).mp
          (by rw [List.get_cons_succ, hget]; exact hpa)
        omega
      simp [hx, hxs]
    | succ k =>
      have hx : p x = false := by
        by_cases hpx : p x = true
        · have : (0 : Nat) = k + 1 := (h 0 (by simp)).mp hpx
          omega
        · exact Bool.not_eq_true _ |>.mp hpx
      have hk : k < xs.length := by simpa using hi
      rw [countP_eq_one_of_unique xs p k hk (fun j hj => by
        have := h (j + 1) (by simpa using Nat.succ_lt_succ hj)
        rw [List.get_cons_succ] at this
        rw [this]
        omega)]
      simp [hx]

/-- C4 as stated is false on the code: with two declared modules, exactly
one failing module fetch and one succeeding fetch whose payload is the
number 42, the phase result carries two error slots, not one — a
successful fetch does not guarantee a valid module result. -/
theorem partial_failure_counterexample :
    (langshakePhase
      { resolveWellKnown := some "wk",
        manifest1 := .ok (.obj [("modules", .arr [.str "m1", .str "m2"])]),
        manifest2 := .ok (.obj [("modules", .arr [.str "m1", .str "m2"])]),
        resolveModule := fun p => match p with | .str s => some s | _ => none,
        fetchModule := fun u => if u = "m1" then .error () else .ok (.num 42),
        traditional := fun _ => .error () } ["m1", "m2"]).countP LSlot.isError = 2 ∧
    (NetEnv.fetchModule
      { resolveWellKnown := some "wk",
        manifest1 := .ok (.obj [("modules", .arr [.str "m1", .str "m2"])]),
        manifest2 := .ok (.obj [("modules", .arr [.str "m1", .str "m2"])]),
        resolveModule := fun p => match p with | .str s => some s | _ => none,
        fetchModule := fun u => if u = "m1" then .error () else .ok (.num 42),
        traditional := fun _ => .error () } "m1" = .error ()) ∧
    (NetEnv.fetchModule
      { resolveWellKnown := some "wk",
        manifest1 := .ok (.obj [("modules", .arr [.str "m1", .str "m2"])]),
        manifest2 := .ok (.obj [("modules", .arr [.str "m1", .str "m2"])]),
        resolveModule := fun p => match p with | .str s => some s | _ => none,
        fetchModule := fun u => if u = "m1" then .error () else .ok (.num 42),
        traditional := fun _ => .error () } "m2" = .ok (.num 42)) :=
  ⟨by decide, rfl, rfl⟩

/-- Claim C4 (amended): for a manifest declaring N modules that all
resolve, with exactly one module fetch failing and every other module
fetch succeeding with a payload that processes to a valid module result,
the LangShake phase result has exactly N index-aligned slots of which
exactly the failing module's slot (and no other) is an error — so 1 error
and N−1 valid module results — and the benchmark's `pages` list has N
entries whose URLs follow the slots in manifest order (the embedding is
completion-order-free: slots are written at their manifest index). -/
theorem partial_failure_slots (env : NetEnv) (wk : String) (m : Json)
    (paths : List Json) (urls : List String) (i : Nat)
    (h1 : env.resolveWellKnown = some wk)
    (h2 : env.manifest1 = .ok m)
    (h3 : jsGet m "modules" = .ok (some (.arr paths)))
    (h4 : paths ≠ [])
    (h5 : env.manifest2 = .ok m)
    (h6 : paths.filterMap env.resolveModule = urls)
    (h7 : urls.length = paths.length)
    (hi : i < urls.length)
    (h8 : env.fetchModule (urls.get ⟨i, hi⟩) = .error ())
    (h9 : ∀ j (hj : j < urls.length), j ≠ i →
      ∃ p res, env.fetchModule (urls.get ⟨j, hj⟩) = .ok p ∧ processPayload p = .ok res) :
    (langshakePhase env urls).length = paths.length ∧
    (∀ j (hj : j < (langshakePhase env urls).length),
      (((langshakePhase env urls).get ⟨j, hj⟩).isError = true ↔ j = i)) ∧
    (langshakePhase env urls).countP LSlot.isError = 1 ∧
    (langshakePhase env urls).countP (fun s => ! s.isError) = paths.length - 1 ∧
    (∃ pages summary, (runDomainBenchmark env).1 = .done pages summary ∧
      pages.length = paths.length ∧
      ∀ j (hj : j < pages.length) (hj2 : j < (langshakePhase env urls).length),
        (pages.get ⟨j, hj⟩).url = ((langshakePhase env urls).get ⟨j, hj2⟩).url) := by
  have hlen : (langshakePhase env urls).length = urls.length := by
    simp [langshakePhase]
  have hslot : ∀ j (hj : j < (langshakePhase env urls).length),
      (langshakePhase env urls).get ⟨j, hj⟩ =
        processModule env (urls.get ⟨j, by omega⟩) := by
    intro j hj
    simp only [langshakePhase, List.get_eq_getElem, List.getElem_map]
  have herr : ∀ j (hj : j < (langshakePhase env urls).length),
      (((langshakePhase env urls).get ⟨j, hj⟩).isError = true ↔ j = i) := by
    intro j hj
    rw [hslot j hj]
    by_cases hji : j = i
    · subst hji
      have h8b : env.fetchModule urls[j] = .error () := by
        simpa [List.get_eq_getElem] using h8
      simp [processModule, h8b, LSlot.isError]
    · obtain ⟨p, res, hfp, hpr⟩ := h9 j (by omega) hji
      obtain ⟨schemas, co, cu⟩ := res
      have hfpb : env.fetchModule urls[j] = .ok p := by
        simpa [List.get_eq_getElem] using hfp
      simp [processModule, hfpb, hpr, LSlot.isError, hji]
  refine ⟨by omega, herr, ?_, ?_, ?_⟩
  · exact countP_eq_one_of_unique _ _ i (by omega) herr
  · have hsplit := List.length_eq_countP_add_countP LSlot.isError (langshakePhase env urls)
    have hone : (langshakePhase env urls).countP LSlot.isError = 1 :=
      countP_eq_one_of_unique _ _ i (by omega) herr
    have hcongr : (langshakePhase env urls).countP (fun s => ! s.isError) =
        (langshakePhase env urls).countP (fun s => decide (¬ s.isError = true)) := by
      apply List.countP_congr
      intro s _
      cases hs : s.isError <;> simp [hs]
    omega
  · have hlen0 : ¬ (paths.length = 0) := by
      simpa [List.length_eq_zero] using h4
    have hrun : (runDomainBenchmark env).1 =
        .done ((langshakePhase env urls).zip
            ((langshakePhase env urls).map
              (fun s => processTraditional env s.url)) |>.map
              (fun p => buildPage p.1 p.2))
          (mkSummary ((langshakePhase env urls).zip
            ((langshakePhase env urls).map
              (fun s => processTraditional env s.url)) |>.map
              (fun p => buildPage p.1 p.2))
            (orNull (optChain2 m "verification" "merkleRoot"))) := by
      simp [runDomainBenchmark, runPhases, h1, h2, h3, h5, h6, hlen0]
    refine ⟨_, _, hrun, ?_, ?_⟩
    · rw [List.length_map, List.length_zip, List.length_map]
      omega
    · intro j hj hj2
      have hj3 : j < ((langshakePhase env urls).zip
          ((langshakePhase env urls).map
            (fun s => processTraditional env s.url))).length := by
        simpa using hj
      simp only [List.get_eq_getElem, List.getElem_map, List.getElem_zip]
      rfl

/-- A two-module environment where the first module's fetch fails and the
second returns a well-formed payload; used to witness C4 (amended). -/
def exampleEnvC4 : NetEnv :=
  { resolveWellKnown := some "wk",
    manifest1 := .ok (.obj [("modules", .arr [.str "m1", .str "m2"])]),
    manifest2 := .ok (.obj [("modules", .arr [.str "m1", .str "m2"])]),
    resolveModule := fun p => match p with | .str s => some s | _ => none,
    fetchModule := fun u =>
      if u = "m1" then .error ()
      else .ok (.arr [.obj [("url", .str "u")], .obj [("checksum", .str "c")]]),
    traditional := fun _ => .error () }

/-- Witness for C4 (amended): two modules, the first fetch failing, the
second valid — one error slot, one valid slot. -/
theorem partial_failure_slots_witness :
    (langshakePhase exampleEnvC4 ["m1", "m2"]).length = 2 ∧
    (langshakePhase exampleEnvC4 ["m1", "m2"]).countP LSlot.isError = 1 ∧
    (langshakePhase exampleEnvC4 ["m1", "m2"]).countP (fun s => ! s.isError) = 1 := by
  have h := partial_failure_slots exampleEnvC4 "wk"
    (.obj [("modules", .arr [.str "m1", .str "m2"])])
    [.str "m1", .str "m2"] ["m1", "m2"] 0 rfl rfl rfl (by decide) rfl rfl (by decide)
    (by decide) rfl
    (by
      intro j hj hne
      have hj2 : j < 2 := by simpa using hj
      interval_cases j
      · exact absurd rfl hne
      · exact ⟨.arr [.obj [("url", .str "u")], .obj [("checksum", .str "c")]],
          ([.obj [("url", .str "u")]], .str "c", .str "u"), rfl, rfl⟩)
  exact ⟨h.1, h.2.2.1, by simpa using h.2.2.2.1⟩

end ShakeProof
